import Mathlib

/-!
# Job pipeline of the video streaming backend

A shallow embedding of `backend/internal/services` (worker pool, `TranscodeVideo`,
GridFS naming) and the properties of the job pipeline proved about it.

Conventions of the embedding:

* a Go `error` is represented by its message, `nil` by `none`;
* everything outside the program (the file system, the `ffmpeg` processes, GridFS, the
  goroutine scheduler, the platform's path separator) is a field of `World`;
* a call of a function records the effects it performs, in order, as a list of `Event`s;
* `log.Fatalf` ends the process: a function that reaches it has the outcome `exited 1`.
-/

namespace Mtv

/-! ## Go values -/

/-- Go `error`: `none` is `nil`, `some msg` an error whose `Error()` text is `msg`. -/
abbrev GoError := Option String

/-! ## The lexical part of `path/filepath` and `strings` that the services call -/

/-- Path separators of the platform: `/` everywhere, and `os.PathSeparator`. -/
def isSeparator (sep c : Char) : Bool := c == '/' || c == sep

/-- Components of a path: the pieces between separators (empty pieces are kept). -/
def splitPath (sep : Char) : List Char → List (List Char)
  | [] => [[]]
  | c :: cs =>
    if isSeparator sep c then [] :: splitPath sep cs
    else
      match splitPath sep cs with
      | [] => [[c]]
      | h :: t => (c :: h) :: t

/-- One component of `filepath.Clean`: empty and `.` components are dropped, `..` removes
the component before it (or is kept at the start of a relative path). -/
def cleanStep (rooted : Bool) (out : List (List Char)) (c : List Char) : List (List Char) :=
  if c = [] ∨ c = ['.'] then out
  else if c = ['.', '.'] then
    match out.getLast? with
    | some l => if l = ['.', '.'] then out ++ [c] else out.dropLast
    | none => if rooted then out else out ++ [c]
  else out ++ [c]

/-- Go `filepath.Clean`, without volume names. -/
def Clean (sep : Char) (path : String) : String :=
  match path.data with
  | [] => "."
  | c :: cs =>
    let rooted := isSeparator sep c
    let out := (splitPath sep (c :: cs)).foldl (cleanStep rooted) []
    if out = [] then (if rooted then String.mk [sep] else ".")
    else String.mk ((if rooted then [sep] else []) ++ List.intercalate [sep] out)

/-- Go `filepath.Join`: the non-empty elements joined by the separator, then cleaned. -/
def Join (sep : Char) (elem : List String) : String :=
  match elem.filter (fun e => decide (e.data ≠ [])) with
  | [] => ""
  | es => Clean sep (String.mk (List.intercalate [sep] (es.map String.data)))

/-- Go `strings.TrimPrefix`. -/
def TrimPrefix (s pre : String) : String :=
  if pre.data.isPrefixOf s.data then String.mk (s.data.drop pre.data.length) else s

/-- NormalizePath of `database_service.go`: `strings.ReplaceAll(path, "\\", "/")`; the
pattern is one character, so every occurrence is replaced in place. -/
def NormalizePath (path : String) : String :=
  String.mk (path.data.map (fun c => if c = '\\' then '/' else c))

/-- The local `relPath` of `UploadFileToGridFS`: the GridFS file name of the upload, the
argument of `bucket.OpenUploadStream`. -/
def relPath (filePath : String) : String :=
  NormalizePath (TrimPrefix filePath "./output/")

/-! ## The world outside the program -/

/-- One call of the callback of `filepath.Walk`: the path, whether it is a directory,
and the error the walk met there. -/
structure WalkEntry where
  path : String
  isDir : Bool
  err : GoError

/-- Everything `TranscodeVideo` depends on and does not compute.
`schedule` is the goroutine scheduler: it picks, step by step, which of the two
conversion goroutines runs next (`false` the 480p one, `true` the 720p one).
`walkVisits root` is the sequence of callback calls `filepath.Walk(root, _)` makes while
the callback returns `nil`. `uploadFileToGridFS i p` is the result of the `i`-th upload,
of file `p`. -/
structure World where
  separator : Char
  mkdirAll : String → GoError
  run480 : GoError
  stderr480 : String
  run720 : GoError
  stderr720 : String
  schedule : List Bool
  walkVisits : String → List WalkEntry
  uploadFileToGridFS : Nat → String → GoError

/-- Effects of the pipeline, in the order they happen. -/
inductive Event where
  | mkdirAll (path : String)
  | logFatalf (msg : String)
  | logPrintf (msg : String)
  | ffmpegRun (args : List String)
  | errChanSend (err : String)
  | sendStatus (clientChan : Nat) (status : String)
  | walk (root : String)
  | uploadFile (bucketName : String) (filePath : String)
  | resultsSend (err : GoError)
  deriving DecidableEq, Repr

/-- How a call ends: it returns its `error`, or the process exits (`log.Fatalf`). -/
inductive Outcome where
  | returned (err : GoError)
  | exited (code : Nat)
  deriving DecidableEq, Repr

/-- Whether the event is the launch of a conversion process. -/
def Event.isFfmpegRun : Event → Bool
  | Event.ffmpegRun _ => true
  | _ => false

/-- Whether the event is an `os.MkdirAll`. -/
def Event.isMkdirAll : Event → Bool
  | Event.mkdirAll _ => true
  | _ => false

/-- The files passed to `UploadFileToGridFS`, in call order. -/
def uploadCalls : List Event → List String
  | [] => []
  | Event.uploadFile _ p :: evs => p :: uploadCalls evs
  | _ :: evs => uploadCalls evs

/-- The values sent on `errChan`, in send order: the content of the channel when it
is closed (its capacity is 2 and at most two values are sent). -/
def errChanContents : List Event → List String
  | [] => []
  | Event.errChanSend e :: evs => e :: errChanContents evs
  | _ :: evs => errChanContents evs

/-- The status messages passed to `SendStatusUpdateToClient`, in call order. -/
def statusCalls : List Event → List String
  | [] => []
  | Event.sendStatus _ s :: evs => s :: statusCalls evs
  | _ :: evs => statusCalls evs

/-! ## `TranscodeVideo` -/

/-- The arguments of the 480p `exec.Command`. -/
def cmd480p (inputFullPath tsOutput480p tsOutput480FullPath m3u8Output480p : String) :
    List String :=
  ["ffmpeg", "-i", inputFullPath, "-vf", "scale=-2:480", "-hls_time", "10",
   "-hls_list_size", "0", "-hls_segment_filename", tsOutput480p,
   "-hls_base_url", tsOutput480FullPath ++ "\\", "-f", "hls", m3u8Output480p]

/-- The arguments of the 720p `exec.Command`. -/
def cmd720p (inputFullPath tsOutput720p tsOutput720FullPath m3u8Output720p : String) :
    List String :=
  ["ffmpeg", "-i", inputFullPath, "-vf", "scale=-2:720", "-hls_time", "10",
   "-hls_list_size", "0", "-hls_segment_filename", tsOutput720p,
   "-hls_base_url", tsOutput720FullPath ++ "\\", "-f", "hls", m3u8Output720p]

/-- The goroutine that runs the 480p conversion. -/
def goroutine480p (w : World) (cmd : List String) (originalFilename : String)
    (clientChanParam : Nat) : List Event :=
  match w.run480 with
  | some err480 =>
    [Event.ffmpegRun cmd, Event.logPrintf ("FFmpeg 480p error: " ++ w.stderr480),
     Event.errChanSend ("failed to transcode 480p: " ++ err480)]
  | none =>
    [Event.ffmpegRun cmd, Event.sendStatus clientChanParam ("T4-" ++ originalFilename ++ ":OK")]

/-- The goroutine that runs the 720p conversion. -/
def goroutine720p (w : World) (cmd : List String) (originalFilename : String)
    (clientChanParam : Nat) : List Event :=
  match w.run720 with
  | some err720 =>
    [Event.ffmpegRun cmd, Event.logPrintf ("FFmpeg 720p error: " ++ w.stderr720),
     Event.errChanSend ("failed to transcode 720p: " ++ err720)]
  | none =>
    [Event.ffmpegRun cmd, Event.sendStatus clientChanParam ("T7-" ++ originalFilename ++ ":OK")]

/-- Two goroutines running concurrently: the schedule picks whose step is next; when it
runs out, or one goroutine is done, the steps that remain follow. -/
def interleave : List Bool → List Event → List Event → List Event
  | [], xs, ys => xs ++ ys
  | false :: _, [], ys => ys
  | false :: s, x :: xs, ys => x :: interleave s xs ys
  | true :: _, xs, [] => xs
  | true :: s, xs, y :: ys => y :: interleave s xs ys

/-- The callback given to `filepath.Walk`: an error is handed back, a file that is not
a directory is appended to `filesToUpload`. -/
def walkFn (filesToUpload : List String) (entry : WalkEntry) : List String × GoError :=
  match entry.err with
  | some err => (filesToUpload, some err)
  | none =>
    if !entry.isDir then (filesToUpload ++ [".\\" ++ entry.path], none)
    else (filesToUpload, none)

/-- The walk: the callback runs on each visit until it returns an error, which
`filepath.Walk` returns. -/
def walkLoop : List WalkEntry → List String → List String × GoError
  | [], filesToUpload => (filesToUpload, none)
  | entry :: rest, filesToUpload =>
    match walkFn filesToUpload entry with
    | (files, some err) => (files, some err)
    | (files, none) => walkLoop rest files

/-- The upload loop: every file is uploaded, a failure is logged and the loop goes on. -/
def uploadLoop (w : World) (gridFSBucketName : String) : Nat → List String → List Event
  | _, [] => []
  | i, filePath :: rest =>
    match w.uploadFileToGridFS i filePath with
    | some err =>
      Event.uploadFile gridFSBucketName filePath ::
        Event.logPrintf ("Error uploading file " ++ filePath ++ ": " ++ err) ::
        uploadLoop w gridFSBucketName (i + 1) rest
    | none => Event.uploadFile gridFSBucketName filePath :: uploadLoop w gridFSBucketName (i + 1) rest

/-- The loop over the closed `errChan` that builds `combinedError`. -/
def combineErrors : List String → GoError → GoError
  | [], combinedError => combinedError
  | err :: rest, none => combineErrors rest (some err)
  | err :: rest, some combinedError => combineErrors rest (some (combinedError ++ "; " ++ err))

/-- TranscodeVideo of `transcoding_service.go`: the effects it performs and how it ends. -/
def TranscodeVideo (w : World) (gridFSBucketName filePath outputfilePath originalFilename : String)
    (clientChanParam : Nat) : List Event × Outcome :=
  let inputFullPath := Join w.separator [filePath, originalFilename]
  let m3u8Output480FullPath := Join w.separator [outputfilePath, "480p", originalFilename, "m3u8"]
  let m3u8output720FullPath := Join w.separator [outputfilePath, "720p", originalFilename, "m3u8"]
  let tsOutput480FullPath := Join w.separator [outputfilePath, "480p", originalFilename, "ts"]
  let tsOutput720FullPath := Join w.separator [outputfilePath, "720p", originalFilename, "ts"]
  match w.mkdirAll m3u8Output480FullPath with
  | some m3u8File480pErr =>
    ([Event.mkdirAll m3u8Output480FullPath,
      Event.logFatalf ("failed to create base directory: " ++ m3u8File480pErr)],
     Outcome.exited 1)
  | none =>
  match w.mkdirAll tsOutput480FullPath with
  | some tsFile480pErr =>
    ([Event.mkdirAll m3u8Output480FullPath, Event.mkdirAll tsOutput480FullPath,
      Event.logFatalf ("failed to create base directory: " ++ tsFile480pErr)],
     Outcome.exited 1)
  | none =>
  match w.mkdirAll m3u8output720FullPath with
  | some m3u8File720pErr =>
    ([Event.mkdirAll m3u8Output480FullPath, Event.mkdirAll tsOutput480FullPath,
      Event.mkdirAll m3u8output720FullPath,
      Event.logFatalf ("failed to create base directory: " ++ m3u8File720pErr)],
     Outcome.exited 1)
  | none =>
  match w.mkdirAll tsOutput720FullPath with
  | some tsFile720pErr =>
    ([Event.mkdirAll m3u8Output480FullPath, Event.mkdirAll tsOutput480FullPath,
      Event.mkdirAll m3u8output720FullPath, Event.mkdirAll tsOutput720FullPath,
      Event.logFatalf ("failed to create base directory: " ++ tsFile720pErr)],
     Outcome.exited 1)
  | none =>
    let m3u8Output480p := Join w.separator [m3u8Output480FullPath, "480p.m3u8"]
    let m3u8Output720p := Join w.separator [m3u8output720FullPath, "720p.m3u8"]
    let tsOutput480p := Join w.separator [tsOutput480FullPath, "480p_%03d.ts"]
    let tsOutput720p := Join w.separator [tsOutput720FullPath, "720p_%03d.ts"]
    let conversions :=
      interleave w.schedule
        (goroutine480p w (cmd480p inputFullPath tsOutput480p tsOutput480FullPath m3u8Output480p)
          originalFilename clientChanParam)
        (goroutine720p w (cmd720p inputFullPath tsOutput720p tsOutput720FullPath m3u8Output720p)
          originalFilename clientChanParam)
    let errChan := errChanContents conversions
    let directories :=
      [Event.mkdirAll m3u8Output480FullPath, Event.mkdirAll tsOutput480FullPath,
       Event.mkdirAll m3u8output720FullPath, Event.mkdirAll tsOutput720FullPath]
    match walkLoop (w.walkVisits outputfilePath) [] with
    | (_, some fileReadErr) =>
      (directories ++ conversions ++
        [Event.walk outputfilePath,
         Event.logFatalf ("Error traversing directory: " ++ fileReadErr)],
       Outcome.exited 1)
    | (filesToUpload, none) =>
      (directories ++ conversions ++ [Event.walk outputfilePath] ++
        uploadLoop w gridFSBucketName 0 filesToUpload,
       Outcome.returned (combineErrors errChan none))

/-! ## Configuration -/

/-- Config of `config.go`. -/
structure Config where
  ServerAddress : String
  MongoURI : String
  UploadPath : String
  TranscodedFilePath : String
  WorkerProcessCount : String
  DBName : String

/-- The function getEnv of `config.go`; `env` is `os.LookupEnv`. -/
def getEnv (env : String → Option String) (key defaultValue : String) : String :=
  match env key with
  | some value => value
  | none => defaultValue

/-- LoadConfig of `config.go`. -/
def LoadConfig (env : String → Option String) : Config :=
  { ServerAddress := getEnv env "SERVER_ADDRESS" ":8080"
    MongoURI := getEnv env "MONGO_URI" "mongodb://localhost:27017"
    UploadPath := getEnv env "UPLOAD_PATH" "./uploads"
    TranscodedFilePath := getEnv env "TRANSCODE_PATH" "./output"
    WorkerProcessCount := getEnv env "WP_COUNT" "2"
    DBName := getEnv env "DB_NAME" "hls_media" }

/-- The package variable maxWorkersEnv of `transcoding_service.go`. -/
def maxWorkersEnv (env : String → Option String) : String :=
  (LoadConfig env).WorkerProcessCount

/-! ## `strconv.Atoi` -/

/-- The two errors of `strconv.Atoi`. -/
inductive NumError where
  | invalidSyntax
  | outOfRange
  deriving DecidableEq, Repr

/-- The digit loop of `strconv.ParseUint(s, 10, 64)`: a character that is not a decimal
digit is a syntax error, a value above `1<<64 - 1` a range error. -/
def parseDigits : List Char → Nat → Except NumError Nat
  | [], n => Except.ok n
  | ch :: rest, n =>
    if !ch.isDigit then Except.error NumError.invalidSyntax
    else if n ≥ (2 ^ 64 - 1) / 10 + 1 then Except.error NumError.outOfRange
    else if n * 10 + (ch.toNat - '0'.toNat) > 2 ^ 64 - 1 then Except.error NumError.outOfRange
    else parseDigits rest (n * 10 + (ch.toNat - '0'.toNat))

/-- Go `strconv.Atoi` on a 64-bit platform: an optional sign, then one or more decimal
digits, and the value has to fit `int`. (Strings shorter than 19 bytes take a fast path
with the same digit loop; they cannot leave the range.) -/
def Atoi (s : String) : Except NumError Int :=
  let neg : Bool := s.data.head? = some '-'
  let digits := if s.data.head? = some '-' ∨ s.data.head? = some '+' then s.data.tail else s.data
  if digits = [] then Except.error NumError.invalidSyntax
  else
    match parseDigits digits 0 with
    | Except.error err => Except.error err
    | Except.ok un =>
      if neg then
        (if un ≤ 2 ^ 63 then Except.ok (-(un : Int)) else Except.error NumError.outOfRange)
      else
        (if un < 2 ^ 63 then Except.ok (un : Int) else Except.error NumError.outOfRange)

/-! ## The worker pool -/

/-- Job of `transcoding_service.go`; the database handle is left out, the client channel
is named by a number. -/
structure Job where
  DBBucketName : String
  UploadPath : String
  TranscodedPath : String
  Filename : String
  ClientChan : Nat
  deriving DecidableEq, Repr

/-- Where a worker goroutine is in its loop body. -/
inductive WorkerPC where
  | waiting
  | dequeued (job : Job)
  | transcoding (job : Job)
  | returned (job : Job) (err : GoError)
  | sending (job : Job) (err : GoError)
  deriving DecidableEq, Repr

/-- Whether the worker is inside `TranscodeVideo`. -/
def WorkerPC.inTranscodeVideo : WorkerPC → Bool
  | WorkerPC.transcoding _ => true
  | _ => false

/-- The pool: the two buffered channels `HandleUpload` makes (capacity 100 each), the
worker goroutines, and whether `log.Fatalf` has ended the process. -/
structure Pool where
  jobs : List Job
  results : List GoError
  resultsClosed : Bool
  workers : List WorkerPC
  exited : Bool
  deriving DecidableEq, Repr

/-- The loop `for i := 0; i < maxWorkers; i++` of `WorkerPool`: one goroutine per turn. -/
def spawnWorkers (maxWorkers : Int) (i : Int) (workers : List WorkerPC) : List WorkerPC :=
  if i < maxWorkers then spawnWorkers maxWorkers (i + 1) (workers ++ [WorkerPC.waiting])
  else workers
termination_by (maxWorkers - i).toNat
decreasing_by omega

/-- WorkerPool of `transcoding_service.go` up to the point where its workers run: it
panics with the error of `strconv.Atoi`, or starts the workers; `wg.Wait()` returns, and
`results` is closed, once no worker is left running. -/
def WorkerPool (maxWorkersEnv : String) : Except NumError Pool :=
  match Atoi maxWorkersEnv with
  | Except.error err => Except.error err
  | Except.ok maxWorkers =>
    Except.ok
      { jobs := []
        results := []
        resultsClosed := (spawnWorkers maxWorkers 0 []).isEmpty
        workers := spawnWorkers maxWorkers 0 []
        exited := false }

/-- The body of the worker loop for one job: the start message, `TranscodeVideo`, the
terminal message and the send on `results`. Nothing follows a `log.Fatalf`. -/
def processJob (w : World) (job : Job) : List Event × Outcome :=
  match TranscodeVideo w job.DBBucketName job.UploadPath job.TranscodedPath job.Filename
      job.ClientChan with
  | (evs, Outcome.exited code) =>
    (Event.sendStatus job.ClientChan ("TS-" ++ job.Filename ++ ":OK") :: evs, Outcome.exited code)
  | (evs, Outcome.returned (some err)) =>
    (Event.sendStatus job.ClientChan ("TS-" ++ job.Filename ++ ":OK") :: evs ++
      [Event.sendStatus job.ClientChan ("TF-" ++ job.Filename ++ ":" ++ err),
       Event.resultsSend (some err)],
     Outcome.returned (some err))
  | (evs, Outcome.returned none) =>
    (Event.sendStatus job.ClientChan ("TS-" ++ job.Filename ++ ":OK") :: evs ++
      [Event.sendStatus job.ClientChan ("TC-" ++ job.Filename ++ ":OK"),
       Event.resultsSend none],
     Outcome.returned none)

/-- The values sent on `results`, in send order. -/
def resultsSends : List Event → List GoError
  | [] => []
  | Event.resultsSend err :: evs => err :: resultsSends evs
  | _ :: evs => resultsSends evs

/-- The steps of the running pipeline. `enqueue` is the send `jobs <- Job{...}` of
`HandleUpload`; the others are the steps of worker `i`. The program has no step that
receives from `results`, and none that closes `jobs`. -/
inductive Action where
  | enqueue (job : Job)
  | dequeue (i : Nat)
  | start (i : Nat)
  | finish (i : Nat) (w : World)
  | report (i : Nat)
  | push (i : Nat)

/-- One step; `none` when the step cannot be taken in this state (a send on a full
channel and a receive from an empty one block). -/
def step (p : Pool) : Action → Option Pool
  | Action.enqueue job =>
    if p.exited then none
    else if p.jobs.length < 100 then some { p with jobs := p.jobs ++ [job] }
    else none
  | Action.dequeue i =>
    if p.exited then none
    else
      match p.workers[i]?, p.jobs with
      | some WorkerPC.waiting, job :: rest =>
        some { p with jobs := rest, workers := p.workers.set i (WorkerPC.dequeued job) }
      | _, _ => none
  | Action.start i =>
    if p.exited then none
    else
      match p.workers[i]? with
      | some (WorkerPC.dequeued job) =>
        some { p with workers := p.workers.set i (WorkerPC.transcoding job) }
      | _ => none
  | Action.finish i w =>
    if p.exited then none
    else
      match p.workers[i]? with
      | some (WorkerPC.transcoding job) =>
        match (TranscodeVideo w job.DBBucketName job.UploadPath job.TranscodedPath job.Filename
            job.ClientChan).2 with
        | Outcome.returned err =>
          some { p with workers := p.workers.set i (WorkerPC.returned job err) }
        | Outcome.exited _ => some { p with exited := true }
      | _ => none
  | Action.report i =>
    if p.exited then none
    else
      match p.workers[i]? with
      | some (WorkerPC.returned job err) =>
        some { p with workers := p.workers.set i (WorkerPC.sending job err) }
      | _ => none
  | Action.push i =>
    if p.exited then none
    else
      match p.workers[i]? with
      | some (WorkerPC.sending _ err) =>
        if p.results.length < 100 then
          some { p with results := p.results ++ [err], workers := p.workers.set i WorkerPC.waiting }
        else none
      | _ => none

/-- A run of the pipeline: the steps taken one after the other. -/
def run : Pool → List Action → Option Pool
  | p, [] => some p
  | p, a :: as =>
    match step p a with
    | some q => run q as
    | none => none

/-- The number of workers inside `TranscodeVideo`. -/
def Pool.inTranscodeVideo (p : Pool) : Nat :=
  (p.workers.filter WorkerPC.inTranscodeVideo).length

/-- The number of `push` steps in a run. -/
def pushCount : List Action → Nat
  | [] => 0
  | Action.push _ :: as => pushCount as + 1
  | _ :: as => pushCount as

/-- The four output directories of a job, in the order `TranscodeVideo` creates them. -/
def outputDirs (sep : Char) (outputfilePath originalFilename : String) : List String :=
  [Join sep [outputfilePath, "480p", originalFilename, "m3u8"],
   Join sep [outputfilePath, "480p", originalFilename, "ts"],
   Join sep [outputfilePath, "720p", originalFilename, "m3u8"],
   Join sep [outputfilePath, "720p", originalFilename, "ts"]]

/-- The steps of the two conversion goroutines of a job, from `wg.Add(2)` to the return
of `wg.Wait()`, in the order the scheduler runs them. -/
def conversions (w : World) (filePath outputfilePath originalFilename : String)
    (clientChanParam : Nat) : List Event :=
  interleave w.schedule
    (goroutine480p w
      (cmd480p (Join w.separator [filePath, originalFilename])
        (Join w.separator
          [Join w.separator [outputfilePath, "480p", originalFilename, "ts"], "480p_%03d.ts"])
        (Join w.separator [outputfilePath, "480p", originalFilename, "ts"])
        (Join w.separator
          [Join w.separator [outputfilePath, "480p", originalFilename, "m3u8"], "480p.m3u8"]))
      originalFilename clientChanParam)
    (goroutine720p w
      (cmd720p (Join w.separator [filePath, originalFilename])
        (Join w.separator
          [Join w.separator [outputfilePath, "720p", originalFilename, "ts"], "720p_%03d.ts"])
        (Join w.separator [outputfilePath, "720p", originalFilename, "ts"])
        (Join w.separator
          [Join w.separator [outputfilePath, "720p", originalFilename, "m3u8"], "720p.m3u8"]))
      originalFilename clientChanParam)

/-! ## Concrete inputs -/

/-- A Windows host where every external step succeeds and the output tree is empty. -/
def quietWorld : World :=
  { separator := '\\'
    mkdirAll := fun _ => none
    run480 := none
    stderr480 := ""
    run720 := none
    stderr720 := ""
    schedule := []
    walkVisits := fun _ => []
    uploadFileToGridFS := fun _ _ => none }

/-- The job `HandleUpload` builds for the upload `v.mp4` under the default configuration. -/
def demoJob : Job :=
  { DBBucketName := "media"
    UploadPath := "./uploads"
    TranscodedPath := "./output"
    Filename := "v.mp4"
    ClientChan := 1 }

/-- A host where the playlist directory of the 480p variant cannot be created. -/
def deniedWorld : World :=
  { quietWorld with
    mkdirAll := fun d =>
      if d = "output\\480p\\v.mp4\\m3u8" then some "mkdir output: permission denied" else none }

/-- A host where both conversions fail and the 720p goroutine runs first. -/
def bothFail720FirstWorld : World :=
  { quietWorld with
    run480 := some "exit status 1"
    run720 := some "exit status 2"
    schedule := [true, true, true] }

/-- A host where both conversions fail and the 480p goroutine runs first. -/
def bothFail480FirstWorld : World :=
  { quietWorld with
    run480 := some "exit status 1"
    run720 := some "exit status 2"
    schedule := [false, false, false] }

/-- A host with two files in the output tree, where the 720p conversion fails and the
upload of the first file fails. -/
def twoFilesWorld : World :=
  { quietWorld with
    run720 := some "exit status 1"
    walkVisits := fun _ =>
      [⟨"./output", true, none⟩, ⟨"output\\480p", true, none⟩,
       ⟨"output\\480p\\v.mp4", true, none⟩, ⟨"output\\480p\\v.mp4\\m3u8", true, none⟩,
       ⟨"output\\480p\\v.mp4\\m3u8\\480p.m3u8", false, none⟩,
       ⟨"output\\480p\\v.mp4\\ts", true, none⟩,
       ⟨"output\\480p\\v.mp4\\ts\\480p_000.ts", false, none⟩]
    uploadFileToGridFS := fun i _ => if i = 0 then some "failed to open file" else none }

/-- The steps by which worker 0 takes one job through the pipeline. -/
def oneJobRound (job : Job) (w : World) : List Action :=
  [Action.enqueue job, Action.dequeue 0, Action.start 0, Action.finish 0 w, Action.report 0,
   Action.push 0]

/-- The steps by which worker 0 takes `k` jobs through the pipeline, one after the other. -/
def processJobs (job : Job) (w : World) : Nat → List Action
  | 0 => []
  | k + 1 => oneJobRound job w ++ processJobs job w k

/-- A run with one worker: 100 jobs are processed, then a further job is taken up to the
point where the worker is about to send its result. -/
def hundredJobsAndOne : List Action :=
  processJobs demoJob quietWorld 100 ++
    [Action.enqueue demoJob, Action.dequeue 0, Action.start 0, Action.finish 0 quietWorld,
     Action.report 0]

/-- The pool with one worker after `k` jobs that succeeded. -/
def poolAfter (k : Nat) : Pool :=
  { jobs := []
    results := List.replicate k none
    resultsClosed := false
    workers := [WorkerPC.waiting]
    exited := false }

/-- The pool with one worker whose 101st result is ready to be sent. -/
def stuckPool : Pool :=
  { jobs := []
    results := List.replicate 100 none
    resultsClosed := false
    workers := [WorkerPC.sending demoJob none]
    exited := false }

/-- A run with two workers in which both are inside `TranscodeVideo`. -/
def twoBusyWorkers : List Action :=
  [Action.enqueue demoJob, Action.enqueue demoJob, Action.enqueue demoJob, Action.dequeue 0,
   Action.dequeue 1, Action.start 0, Action.start 1]

/-- The pool of two waiting workers that the default configuration starts. -/
def twoWorkerPool : Pool :=
  { jobs := []
    results := []
    resultsClosed := false
    workers := [WorkerPC.waiting, WorkerPC.waiting]
    exited := false }

/-- The pool of two workers, both inside `TranscodeVideo`, one job queued. -/
def twoBusyPool : Pool :=
  { jobs := [demoJob]
    results := []
    resultsClosed := false
    workers := [WorkerPC.transcoding demoJob, WorkerPC.transcoding demoJob]
    exited := false }

/-- The pool without workers that a worker count of zero or less starts. -/
def noWorkerPool : Pool :=
  { jobs := []
    results := []
    resultsClosed := true
    workers := []
    exited := false }

/-- The steps by which the single worker takes its first job up to the send on `results`. -/
def firstResultReady : List Action :=
  [Action.enqueue demoJob, Action.dequeue 0, Action.start 0, Action.finish 0 quietWorld,
   Action.report 0]

/-- The pool with one worker whose first result is ready to be sent. -/
def readyPool : Pool :=
  { jobs := []
    results := []
    resultsClosed := false
    workers := [WorkerPC.sending demoJob none]
    exited := false }

/-! ## Paths of the output tree -/

/-- A single path component: not empty, not `.` or `..`, and without a separator. The
file name of a job is `filepath.Base` of the upload id, a single component. -/
def isPlainName (sep : Char) (name : String) : Bool :=
  decide (name.data ≠ []) && decide (name.data ≠ ['.']) && decide (name.data ≠ ['.', '.']) &&
    name.data.all (fun c => !isSeparator sep c)

/-- The output directories of the job for `originalFilename`, one per variant; the four
directories of `outputDirs` are the `m3u8` and `ts` directories below them. -/
def jobDirs (sep : Char) (outputfilePath originalFilename : String) : List String :=
  [Join sep [outputfilePath, "480p", originalFilename],
   Join sep [outputfilePath, "720p", originalFilename]]

/-- Whether `path` is the directory `dir` or lies below it. -/
def insideDir (sep : Char) (dir path : String) : Bool :=
  dir.data.isPrefixOf path.data &&
    (match path.data.drop dir.data.length with
     | [] => true
     | s :: _ => isSeparator sep s)

/-- The path `filepath.Walk(root, _)` hands to its callback for the entry reached from
the root through the directory entries `names`: on each level it is
`filepath.Join(path, name)`. -/
def walkPath (sep : Char) (root : String) : List String → String
  | [] => root
  | name :: rest => walkPath sep (Join sep [root, name]) rest

/-- A host whose output tree holds the segment of an earlier job, for `w.mp4`, next to
the segment of the job for `v.mp4`. -/
def sharedTreeWorld : World :=
  { quietWorld with
    walkVisits := fun _ =>
      [⟨"./output", true, none⟩, ⟨"output\\480p", true, none⟩,
       ⟨"output\\480p\\v.mp4", true, none⟩, ⟨"output\\480p\\v.mp4\\ts", true, none⟩,
       ⟨"output\\480p\\v.mp4\\ts\\480p_000.ts", false, none⟩,
       ⟨"output\\480p\\w.mp4", true, none⟩, ⟨"output\\480p\\w.mp4\\ts", true, none⟩,
       ⟨"output\\480p\\w.mp4\\ts\\480p_000.ts", false, none⟩] }

/-! ## Status messages of a job -/

/-- The per-variant messages `TranscodeVideo` publishes for the file: one for each
conversion that succeeded, none for a conversion that failed. -/
def variantMessages (w : World) (originalFilename : String) : List String :=
  (match w.run480 with
    | none => ["T4-" ++ originalFilename ++ ":OK"]
    | some _ => []) ++
  (match w.run720 with
    | none => ["T7-" ++ originalFilename ++ ":OK"]
    | some _ => [])

/-- The terminal message of the worker for the value `TranscodeVideo` returned. -/
def terminalMessage (filename : String) : GoError → String
  | none => "TC-" ++ filename ++ ":OK"
  | some err => "TF-" ++ filename ++ ":" ++ err

/-- A host where both conversions succeed and the walk of the output tree then meets a
directory it cannot read. -/
def walkErrorWorld : World :=
  { quietWorld with
    walkVisits := fun _ =>
      [⟨"./output", true, none⟩, ⟨"output\\480p", true, none⟩,
       ⟨"output\\480p\\w.mp4", true, some "open output\\480p\\w.mp4: Access is denied."⟩] }

/-! ## The status hub (`notification_service.go`)

A value of type `chan string` is a number: `0` is the `nil` channel, and `make` returns
numbers from 1 upwards, never one it returned before. -/

/-- Where the `StatusStreamHandler` call that made a channel is: the channel is made
(and stored in `currClientChan`), registered by `AddClient` and served by the loop,
unregistered by the deferred `RemoveClient`, closed by the deferred `close`. -/
inductive HandlerPC where
  | notMade
  | made
  | streaming
  | removed
  | finished
  deriving DecidableEq, Repr

/-- A channel: its pending messages, its capacity, whether it is closed, and where the
handler that made it is. -/
structure Chan where
  buffer : List String
  capacity : Nat
  closed : Bool
  handler : HandlerPC
  deriving DecidableEq, Repr

/-- The package variables `clients` (the keys of the map) and `currClientChan`, and the
channels made so far (`next` is the number `make` returns next). -/
structure Hub where
  clients : List Nat
  currClientChan : Nat
  chans : Nat → Chan
  next : Nat

/-- The hub when the process starts: no client, `currClientChan` is `nil`. -/
def initHub : Hub :=
  { clients := []
    currClientChan := 0
    chans := fun _ => { buffer := [], capacity := 0, closed := false, handler := HandlerPC.notMade }
    next := 1 }

/-- GetCurrClientChan of `notification_service.go`. -/
def GetCurrClientChan (h : Hub) : Nat := h.currClientChan

/-- AddClient of `notification_service.go`: `clients[clientChan] = struct{}{}`. -/
def AddClient (h : Hub) (clientChan : Nat) : Hub :=
  { h with clients := if clientChan ∈ h.clients then h.clients else clientChan :: h.clients }

/-- RemoveClient of `notification_service.go`: `delete(clients, clientChan)`, and
nothing else. -/
def RemoveClient (h : Hub) (clientChan : Nat) : Hub :=
  { h with clients := h.clients.filter (fun c => decide (c ≠ clientChan)) }

/-- What a call of `SendStatusUpdateToClient` did: it found the channel missing from
`clients`; it sent; it took the `default` branch of the `select`; or the send panicked
(a send on a closed channel panics, also inside a `select`). -/
inductive SendResult where
  | notRegistered
  | sent
  | notReady
  | panicked
  deriving DecidableEq, Repr

/-- SendStatusUpdateToClient of `notification_service.go`, under `clientsMu`: the lookup
in `clients`, then the `select` with the send and the `default` branch. A send on the
`nil` channel is never ready; a send on an open channel is ready when the buffer has
room. -/
def SendStatusUpdateToClient (h : Hub) (clientChan : Nat) (status : String) : Hub × SendResult :=
  if clientChan ∈ h.clients then
    if clientChan = 0 then (h, SendResult.notReady)
    else if (h.chans clientChan).closed then (h, SendResult.panicked)
    else if (h.chans clientChan).buffer.length < (h.chans clientChan).capacity then
      ({ h with
          chans := Function.update h.chans clientChan
            { h.chans clientChan with buffer := (h.chans clientChan).buffer ++ [status] } },
       SendResult.sent)
    else (h, SendResult.notReady)
  else (h, SendResult.notRegistered)

/-- The steps of the hub. `connect`, `register`, `receive`, `remove` and `close` are the
steps of the `StatusStreamHandler` call that made channel `c`, in the order of its code:
`make` and the assignment to `currClientChan`, `AddClient`, a receive of its loop, and on
disconnect the deferred `RemoveClient` and then `close`. `send` is a call of
`SendStatusUpdateToClient` by any goroutine with any channel value. -/
inductive HubAction where
  | connect
  | register (c : Nat)
  | receive (c : Nat)
  | remove (c : Nat)
  | close (c : Nat)
  | send (c : Nat) (status : String)
  deriving DecidableEq, Repr

/-- One step of the hub; `none` when the step cannot be taken in this state. -/
def hubStep (h : Hub) : HubAction → Option Hub
  | HubAction.connect =>
    some
      { h with
        chans := Function.update h.chans h.next
          { buffer := [], capacity := 100, closed := false, handler := HandlerPC.made }
        currClientChan := h.next
        next := h.next + 1 }
  | HubAction.register c =>
    if (h.chans c).handler = HandlerPC.made then
      some (AddClient
        { h with
          chans := Function.update h.chans c { h.chans c with handler := HandlerPC.streaming } }
        c)
    else none
  | HubAction.receive c =>
    if (h.chans c).handler = HandlerPC.streaming then
      match (h.chans c).buffer with
      | [] => none
      | _ :: rest =>
        some { h with chans := Function.update h.chans c { h.chans c with buffer := rest } }
    else none
  | HubAction.remove c =>
    if (h.chans c).handler = HandlerPC.streaming then
      some (RemoveClient
        { h with
          chans := Function.update h.chans c { h.chans c with handler := HandlerPC.removed } }
        c)
    else none
  | HubAction.close c =>
    if (h.chans c).handler = HandlerPC.removed then
      some
        { h with
          chans := Function.update h.chans c
            { h.chans c with closed := true, handler := HandlerPC.finished } }
    else none
  | HubAction.send c status =>
    match SendStatusUpdateToClient h c status with
    | (_, SendResult.panicked) => none
    | (h', _) => some h'

/-- A run of the hub from a state. -/
def runHub : Hub → List HubAction → Option Hub
  | h, [] => some h
  | h, a :: as =>
    match hubStep h a with
    | some h' => runHub h' as
    | none => none

/-- One client has connected and is registered. -/
def oneClientConnected : List HubAction :=
  [HubAction.connect, HubAction.register 1]

/-- What holds of the hub in every state it reaches: `make` never returns `nil` or a
channel it returned before; a registered channel is one whose handler is in its loop;
and a channel whose handler has not yet left its loop is open, has capacity 100 and holds
at most 100 messages. -/
def HubInv (h : Hub) : Prop :=
  1 ≤ h.next ∧
  (∀ c, h.next ≤ c → (h.chans c).handler = HandlerPC.notMade) ∧
  (h.chans 0).handler = HandlerPC.notMade ∧
  (∀ c ∈ h.clients, (h.chans c).handler = HandlerPC.streaming) ∧
  (∀ c, (h.chans c).handler = HandlerPC.made ∨ (h.chans c).handler = HandlerPC.streaming →
    (h.chans c).closed = false ∧ (h.chans c).capacity = 100 ∧
      (h.chans c).buffer.length ≤ 100)

/-- One client connects, and 100 status messages are sent to it while it reads none. -/
def fullBufferRun : List HubAction :=
  oneClientConnected ++ List.replicate 100 (HubAction.send 1 "T4-v.mp4:OK")

/-- One client connects, gets a message, disconnects, and a message is sent to its
channel afterwards. -/
def disconnectRun : List HubAction :=
  [HubAction.connect, HubAction.register 1, HubAction.send 1 "TS-v.mp4:OK", HubAction.receive 1,
   HubAction.remove 1, HubAction.close 1, HubAction.send 1 "TC-v.mp4:OK"]

/-! ## The HLS handlers (`api/handler.go`) -/

/-- Go `strings.Split(s, "/")`: the pieces between the slashes, empty pieces included. -/
def Split (s : String) : List String :=
  (splitPath '/' s.data).map String.mk

/-- What a handler does with a request: it answers 400 with a message, it panics on an
index out of range, or it calls `ServeFileFromGridFS` with a file name and a bucket. -/
inductive Response where
  | badRequest (msg : String)
  | indexOutOfRange (index length : Nat)
  | serveFileFromGridFS (filename bucketName : String)
  deriving DecidableEq, Repr

/-- ServeHLS of `handler.go`, for the request path `r.URL.Path`. -/
def ServeHLS (conf : Config) (urlPath : String) : Response :=
  if (Split urlPath).length < 5 then Response.badRequest "Invalid URL format"
  else
    match (Split urlPath)[2]? with
    | none => Response.indexOutOfRange 2 (Split urlPath).length
    | some quality =>
      match (Split urlPath)[3]? with
      | none => Response.indexOutOfRange 3 (Split urlPath).length
      | some streamID =>
        match (Split urlPath)[5]? with
        | none => Response.indexOutOfRange 5 (Split urlPath).length
        | some filename =>
          Response.serveFileFromGridFS
            (conf.TranscodedFilePath ++ "/" ++ quality ++ "/" ++ streamID ++ "/ts/" ++ filename)
            "media"

/-- ServeM3U8 of `handler.go`; `queryParams` is `r.URL.Query().Get`. -/
def ServeM3U8 (sep : Char) (conf : Config) (queryParams : String → String) : Response :=
  if queryParams "stream_id" = "" then Response.badRequest "Missing stream parameter"
  else
    Response.serveFileFromGridFS
      ("./" ++
        Join sep
          [Join sep
              [conf.TranscodedFilePath,
               if queryParams "quality" = "" then "480p" else queryParams "quality",
               queryParams "stream_id", "m3u8"],
           (if queryParams "quality" = "" then "480p" else queryParams "quality") ++ ".m3u8"])
      "media"

/-- The local `normalizedFilePath` of `ServeFileFromGridFS`: the GridFS name that is
looked up, the argument of `bucket.OpenDownloadStreamByName`. -/
def normalizedFilePath (filename : String) : String :=
  NormalizePath filename

/-! ## Theorems -/

theorem interleave_perm (s : List Bool) (xs ys : List Event) :
    (interleave s xs ys).Perm (xs ++ ys) := by
  induction s generalizing xs ys with
  | nil => simp [interleave]
  | cons b s ih =>
    cases b with
    | false =>
      cases xs with
      | nil => simp [interleave]
      | cons x xs => simpa [interleave] using ih xs ys
    | true =>
      cases ys with
      | nil => simp [interleave]
      | cons y ys =>
        simp only [interleave]
        exact ((ih xs ys).cons y).trans (List.perm_middle.symm)

theorem errChanContents_eq_filterMap (evs : List Event) :
    errChanContents evs =
      evs.filterMap (fun ev => match ev with
        | Event.errChanSend e => some e
        | _ => none) := by
  induction evs with
  | nil => rfl
  | cons ev evs ih => cases ev <;> simp [errChanContents, ih]

theorem errChanContents_interleave_perm (s : List Bool) (xs ys : List Event) :
    (errChanContents (interleave s xs ys)).Perm (errChanContents xs ++ errChanContents ys) := by
  simp only [errChanContents_eq_filterMap, ← List.filterMap_append]
  exact (interleave_perm s xs ys).filterMap _

theorem combineErrors_some_ne_none (errs : List String) (c : String) :
    combineErrors errs (some c) ≠ none := by
  induction errs generalizing c with
  | nil => simp [combineErrors]
  | cons e errs ih => simpa [combineErrors] using ih _

theorem combineErrors_eq_none_iff (errs : List String) :
    combineErrors errs none = none ↔ errs = [] := by
  cases errs with
  | nil => simp [combineErrors]
  | cons e errs => simpa [combineErrors] using combineErrors_some_ne_none errs e

theorem mkdirs_ok_iff (w : World) (out f : String) :
    (∀ d ∈ outputDirs w.separator out f, w.mkdirAll d = none) ↔
      w.mkdirAll (Join w.separator [out, "480p", f, "m3u8"]) = none ∧
      w.mkdirAll (Join w.separator [out, "480p", f, "ts"]) = none ∧
      w.mkdirAll (Join w.separator [out, "720p", f, "m3u8"]) = none ∧
      w.mkdirAll (Join w.separator [out, "720p", f, "ts"]) = none := by
  simp [outputDirs]

/-- With the four directories created and the walk without error, `TranscodeVideo`
returns, after the conversions, the walk and the uploads. -/
theorem TranscodeVideo_of_dirs (w : World) (b fp out f : String) (ch : Nat)
    (hd : ∀ d ∈ outputDirs w.separator out f, w.mkdirAll d = none)
    (files : List String) (hw : walkLoop (w.walkVisits out) [] = (files, none)) :
    TranscodeVideo w b fp out f ch =
      ((outputDirs w.separator out f).map Event.mkdirAll ++ conversions w fp out f ch ++
          [Event.walk out] ++ uploadLoop w b 0 files,
        Outcome.returned (combineErrors (errChanContents (conversions w fp out f ch)) none)) := by
  obtain ⟨h1, h2, h3, h4⟩ := (mkdirs_ok_iff w out f).1 hd
  simp only [TranscodeVideo, h1, h2, h3, h4, hw, outputDirs, List.map, conversions]

/-- With the four directories created and an error in the walk, the process exits after
the conversions. -/
theorem TranscodeVideo_of_walk_error (w : World) (b fp out f : String) (ch : Nat)
    (hd : ∀ d ∈ outputDirs w.separator out f, w.mkdirAll d = none)
    (files : List String) (e : String) (hw : walkLoop (w.walkVisits out) [] = (files, some e)) :
    TranscodeVideo w b fp out f ch =
      ((outputDirs w.separator out f).map Event.mkdirAll ++ conversions w fp out f ch ++
          [Event.walk out, Event.logFatalf ("Error traversing directory: " ++ e)],
        Outcome.exited 1) := by
  obtain ⟨h1, h2, h3, h4⟩ := (mkdirs_ok_iff w out f).1 hd
  simp only [TranscodeVideo, h1, h2, h3, h4, hw, outputDirs, List.map, conversions]

/-- When a directory cannot be created, the process exits right after the failed
`os.MkdirAll`: the effects are the directory creations up to the failing one and the
`log.Fatalf`. -/
theorem TranscodeVideo_of_mkdir_error (w : World) (b fp out f : String) (ch : Nat)
    (hd : ∃ d ∈ outputDirs w.separator out f, w.mkdirAll d ≠ none) :
    ∃ n e, n < 4 ∧ w.mkdirAll ((outputDirs w.separator out f).getD n "") = some e ∧
      TranscodeVideo w b fp out f ch =
        (((outputDirs w.separator out f).take (n + 1)).map Event.mkdirAll ++
          [Event.logFatalf ("failed to create base directory: " ++ e)], Outcome.exited 1) := by
  cases h1 : w.mkdirAll (Join w.separator [out, "480p", f, "m3u8"]) with
  | some e =>
    exact ⟨0, e, by decide, by simpa [outputDirs] using h1,
      by simp [TranscodeVideo, h1, outputDirs]⟩
  | none =>
  cases h2 : w.mkdirAll (Join w.separator [out, "480p", f, "ts"]) with
  | some e =>
    exact ⟨1, e, by decide, by simpa [outputDirs] using h2,
      by simp [TranscodeVideo, h1, h2, outputDirs]⟩
  | none =>
  cases h3 : w.mkdirAll (Join w.separator [out, "720p", f, "m3u8"]) with
  | some e =>
    exact ⟨2, e, by decide, by simpa [outputDirs] using h3,
      by simp [TranscodeVideo, h1, h2, h3, outputDirs]⟩
  | none =>
  cases h4 : w.mkdirAll (Join w.separator [out, "720p", f, "ts"]) with
  | some e =>
    exact ⟨3, e, by decide, by simpa [outputDirs] using h4,
      by simp [TranscodeVideo, h1, h2, h3, h4, outputDirs]⟩
  | none =>
    exfalso
    obtain ⟨d, hd, hne⟩ := hd
    simp only [outputDirs, List.mem_cons, List.mem_singleton, List.not_mem_nil, or_false] at hd
    rcases hd with rfl | rfl | rfl | rfl <;> simp_all

theorem errChanContents_goroutine480p (w : World) (cmd : List String) (f : String) (ch : Nat) :
    errChanContents (goroutine480p w cmd f ch) =
      match w.run480 with
      | some e => ["failed to transcode 480p: " ++ e]
      | none => [] := by
  cases h : w.run480 <;> simp [goroutine480p, h, errChanContents]

theorem errChanContents_goroutine720p (w : World) (cmd : List String) (f : String) (ch : Nat) :
    errChanContents (goroutine720p w cmd f ch) =
      match w.run720 with
      | some e => ["failed to transcode 720p: " ++ e]
      | none => [] := by
  cases h : w.run720 <;> simp [goroutine720p, h, errChanContents]

/-- The content of `errChan` after `wg.Wait()`: the messages of the failed variants, in
some order. -/
theorem errChanContents_conversions_perm (w : World) (fp out f : String) (ch : Nat) :
    (errChanContents (conversions w fp out f ch)).Perm
      ((match w.run480 with
        | some e => ["failed to transcode 480p: " ++ e]
        | none => []) ++
       (match w.run720 with
        | some e => ["failed to transcode 720p: " ++ e]
        | none => [])) := by
  have h := errChanContents_interleave_perm w.schedule
    (goroutine480p w
      (cmd480p (Join w.separator [fp, f])
        (Join w.separator [Join w.separator [out, "480p", f, "ts"], "480p_%03d.ts"])
        (Join w.separator [out, "480p", f, "ts"])
        (Join w.separator [Join w.separator [out, "480p", f, "m3u8"], "480p.m3u8"])) f ch)
    (goroutine720p w
      (cmd720p (Join w.separator [fp, f])
        (Join w.separator [Join w.separator [out, "720p", f, "ts"], "720p_%03d.ts"])
        (Join w.separator [out, "720p", f, "ts"])
        (Join w.separator [Join w.separator [out, "720p", f, "m3u8"], "720p.m3u8"])) f ch)
  rw [errChanContents_goroutine480p, errChanContents_goroutine720p] at h
  exact h

theorem walkLoop_cases (visits : List WalkEntry) :
    (∃ files, walkLoop visits [] = (files, none)) ∨
      ∃ files e, walkLoop visits [] = (files, some e) := by
  rcases h : walkLoop visits [] with ⟨files, _ | e⟩
  · exact Or.inl ⟨files, rfl⟩
  · exact Or.inr ⟨files, e, rfl⟩

/-- C1, evaluated on a host where the first directory cannot be created: the call does
not return the error of `os.MkdirAll` to the worker, the process exits with status 1 at
`log.Fatalf`; the worker has published the start message only, and sends nothing on the
results channel. -/
theorem C1_mkdir_failure_exits_process :
    TranscodeVideo deniedWorld "media" "./uploads" "./output" "v.mp4" 1 =
      ([Event.mkdirAll "output\\480p\\v.mp4\\m3u8",
        Event.logFatalf "failed to create base directory: mkdir output: permission denied"],
       Outcome.exited 1) ∧
    (processJob deniedWorld demoJob).2 ≠
      Outcome.returned (some "mkdir output: permission denied") ∧
    statusCalls (processJob deniedWorld demoJob).1 = ["TS-v.mp4:OK"] ∧
    resultsSends (processJob deniedWorld demoJob).1 = [] := by
  decide

/-- C2: when one of the four output directories cannot be created, `TranscodeVideo`
launches no conversion process; and whenever it launches one, the four directory
creations, all successful, come before the launch. -/
theorem C2_no_conversion_without_directories (w : World) (b fp out f : String) (ch : Nat) :
    ((∃ d ∈ outputDirs w.separator out f, w.mkdirAll d ≠ none) →
      ∀ ev ∈ (TranscodeVideo w b fp out f ch).1, ev.isFfmpegRun = false) ∧
    (∀ pre ev post, (TranscodeVideo w b fp out f ch).1 = pre ++ ev :: post →
      ev.isFfmpegRun = true →
      (∀ d ∈ outputDirs w.separator out f, w.mkdirAll d = none) ∧
      (outputDirs w.separator out f).map Event.mkdirAll <+: pre) := by
  have hfail : (∃ d ∈ outputDirs w.separator out f, w.mkdirAll d ≠ none) →
      ∀ ev ∈ (TranscodeVideo w b fp out f ch).1, ev.isFfmpegRun = false := by
    intro hd ev hev
    obtain ⟨n, e, _, _, htv⟩ := TranscodeVideo_of_mkdir_error w b fp out f ch hd
    rw [htv] at hev
    simp only [List.mem_append, List.mem_map, List.mem_singleton] at hev
    rcases hev with ⟨d, _, rfl⟩ | rfl <;> rfl
  refine ⟨hfail, ?_⟩
  intro pre ev post htr hev
  by_cases hd : ∃ d ∈ outputDirs w.separator out f, w.mkdirAll d ≠ none
  · have := hfail hd ev (by rw [htr]; simp)
    rw [this] at hev
    exact absurd hev (by decide)
  · have hok : ∀ d ∈ outputDirs w.separator out f, w.mkdirAll d = none := by
      intro d hmem
      by_contra hne
      exact hd ⟨d, hmem, hne⟩
    refine ⟨hok, ?_⟩
    have hshape : ∃ rest, (TranscodeVideo w b fp out f ch).1 =
        (outputDirs w.separator out f).map Event.mkdirAll ++ rest := by
      rcases walkLoop_cases (w.walkVisits out) with ⟨files, hw⟩ | ⟨files, e, hw⟩
      · refine ⟨conversions w fp out f ch ++ [Event.walk out] ++ uploadLoop w b 0 files, ?_⟩
        rw [TranscodeVideo_of_dirs w b fp out f ch hok files hw]
        simp only [List.append_assoc]
      · refine ⟨conversions w fp out f ch ++
          [Event.walk out, Event.logFatalf ("Error traversing directory: " ++ e)], ?_⟩
        rw [TranscodeVideo_of_walk_error w b fp out f ch hok files e hw]
        simp only [List.append_assoc]
    obtain ⟨rest, hrest⟩ := hshape
    rw [htr] at hrest
    rcases List.append_eq_append_iff.1 hrest with ⟨a, hdirs, ha⟩ | ⟨c, hpre, _⟩
    · cases a with
      | nil => exact ⟨[], by simpa using hdirs⟩
      | cons x a =>
        exfalso
        have hx : ev = x := by
          simp only [List.cons_append, List.cons.injEq] at ha
          exact ha.1
        have hmem : ev ∈ (outputDirs w.separator out f).map Event.mkdirAll := by
          rw [hdirs, hx]; simp
        simp only [List.mem_map] at hmem
        obtain ⟨d, _, rfl⟩ := hmem
        simp [Event.isFfmpegRun] at hev
    · exact ⟨c, hpre.symm⟩

/-- C2 on a host where the 480p playlist directory cannot be created: the premise
holds there and no conversion is launched. -/
theorem C2_no_conversion_without_directories_witness :
    (∃ d ∈ outputDirs deniedWorld.separator "./output" "v.mp4", deniedWorld.mkdirAll d ≠ none) ∧
    ∀ ev ∈ (TranscodeVideo deniedWorld "media" "./uploads" "./output" "v.mp4" 1).1,
      ev.isFfmpegRun = false :=
  ⟨⟨"output\\480p\\v.mp4\\m3u8", by decide, by decide⟩,
   (C2_no_conversion_without_directories deniedWorld "media" "./uploads" "./output" "v.mp4" 1).1
     ⟨"output\\480p\\v.mp4\\m3u8", by decide, by decide⟩⟩

theorem errChanContents_append (xs ys : List Event) :
    errChanContents (xs ++ ys) = errChanContents xs ++ errChanContents ys := by
  simp [errChanContents_eq_filterMap]

theorem errChanContents_conversions_eq_nil_iff (w : World) (fp out f : String) (ch : Nat) :
    errChanContents (conversions w fp out f ch) = [] ↔ w.run480 = none ∧ w.run720 = none := by
  have h := errChanContents_conversions_perm w fp out f ch
  constructor
  · intro hnil
    rw [hnil] at h
    have h2 := (List.nil_perm.1 h)
    cases h480 : w.run480 <;> cases h720 : w.run720 <;> simp_all
  · rintro ⟨h480, h720⟩
    rw [h480, h720] at h
    exact List.perm_nil.1 h

theorem perm_pair_cases {α : Type} {l : List α} {a b : α} (h : l.Perm [a, b]) :
    l = [a, b] ∨ l = [b, a] := by
  have hlen := h.length_eq
  match l, hlen with
  | [x, y], _ =>
    have hx : x ∈ [a, b] := h.subset (by simp)
    simp only [List.mem_cons, List.mem_singleton, List.not_mem_nil, or_false] at hx
    rcases hx with rfl | rfl
    · have := (List.perm_cons x).1 h
      rw [List.perm_singleton] at this
      simp only [List.cons.injEq, and_true] at this
      subst this
      exact Or.inl rfl
    · have h2 : [x, y].Perm [x, a] := h.trans (List.Perm.swap _ _ _)
      have := (List.perm_cons x).1 h2
      rw [List.perm_singleton] at this
      simp only [List.cons.injEq, and_true] at this
      subst this
      exact Or.inr rfl

/-- C3: with the directories created and the walk without error, `TranscodeVideo`
returns, and it returns `nil` exactly when both conversions succeeded; the value it
returns is the same for every outcome of the uploads. -/
theorem C3_nil_iff_both_conversions_succeed (w : World) (b fp out f : String) (ch : Nat)
    (hd : ∀ d ∈ outputDirs w.separator out f, w.mkdirAll d = none)
    (hw : (walkLoop (w.walkVisits out) []).2 = none) :
    (∃ r, (TranscodeVideo w b fp out f ch).2 = Outcome.returned r ∧
      (r = none ↔ w.run480 = none ∧ w.run720 = none)) ∧
    ∀ upload : Nat → String → GoError,
      (TranscodeVideo { w with uploadFileToGridFS := upload } b fp out f ch).2 =
        (TranscodeVideo w b fp out f ch).2 := by
  have hfiles : walkLoop (w.walkVisits out) [] = ((walkLoop (w.walkVisits out) []).1, none) := by
    rw [← hw]
  constructor
  · refine ⟨_, by rw [TranscodeVideo_of_dirs w b fp out f ch hd _ hfiles], ?_⟩
    rw [combineErrors_eq_none_iff, errChanContents_conversions_eq_nil_iff]
  · intro upload
    rw [TranscodeVideo_of_dirs w b fp out f ch hd _ hfiles,
      TranscodeVideo_of_dirs { w with uploadFileToGridFS := upload } b fp out f ch hd _ hfiles]
    rfl

/-- C3 on a host where the 720p conversion fails and the first upload fails: the call
returns the conversion error, whatever the uploads do. -/
theorem C3_nil_iff_both_conversions_succeed_witness :
    (∀ d ∈ outputDirs twoFilesWorld.separator "./output" "v.mp4", twoFilesWorld.mkdirAll d = none) ∧
    (walkLoop (twoFilesWorld.walkVisits "./output") []).2 = none ∧
    (∃ r, (TranscodeVideo twoFilesWorld "media" "./uploads" "./output" "v.mp4" 1).2 =
        Outcome.returned r ∧
      (r = none ↔ twoFilesWorld.run480 = none ∧ twoFilesWorld.run720 = none)) ∧
    ∀ upload : Nat → String → GoError,
      (TranscodeVideo { twoFilesWorld with uploadFileToGridFS := upload } "media" "./uploads"
          "./output" "v.mp4" 1).2 =
        (TranscodeVideo twoFilesWorld "media" "./uploads" "./output" "v.mp4" 1).2 :=
  ⟨by intro d _; rfl, by decide,
   C3_nil_iff_both_conversions_succeed twoFilesWorld "media" "./uploads" "./output" "v.mp4" 1
     (by intro d _; rfl) (by decide)⟩

theorem errChanContents_map_mkdirAll (ds : List String) :
    errChanContents (ds.map Event.mkdirAll) = [] := by
  induction ds with
  | nil => rfl
  | cons d ds ih => simpa [errChanContents] using ih

theorem errChanContents_uploadLoop (w : World) (b : String) (i : Nat) (files : List String) :
    errChanContents (uploadLoop w b i files) = [] := by
  induction files generalizing i with
  | nil => rfl
  | cons p files ih =>
    cases h : w.uploadFileToGridFS i p <;> simp [uploadLoop, h, errChanContents, ih]

/-- C4 as the code has it: with the directories created and the walk without error, the
error `TranscodeVideo` returns is `nil` when no variant failed, the message of the one
failed variant when exactly one failed, and, when both failed, the two messages joined by
"; " in the order in which the goroutines sent them on `errChan`, which is either order. -/
theorem C4_errors_joined_in_send_order (w : World) (b fp out f : String) (ch : Nat)
    (hd : ∀ d ∈ outputDirs w.separator out f, w.mkdirAll d = none)
    (hw : (walkLoop (w.walkVisits out) []).2 = none) :
    ∃ r, (TranscodeVideo w b fp out f ch).2 = Outcome.returned r ∧
      match w.run480, w.run720 with
      | none, none => r = none
      | some e480, none => r = some ("failed to transcode 480p: " ++ e480)
      | none, some e720 => r = some ("failed to transcode 720p: " ++ e720)
      | some e480, some e720 =>
        (errChanContents (TranscodeVideo w b fp out f ch).1 =
            ["failed to transcode 480p: " ++ e480, "failed to transcode 720p: " ++ e720] ∧
          r = some ("failed to transcode 480p: " ++ e480 ++ "; " ++
            ("failed to transcode 720p: " ++ e720))) ∨
        (errChanContents (TranscodeVideo w b fp out f ch).1 =
            ["failed to transcode 720p: " ++ e720, "failed to transcode 480p: " ++ e480] ∧
          r = some ("failed to transcode 720p: " ++ e720 ++ "; " ++
            ("failed to transcode 480p: " ++ e480))) := by
  have hfiles : walkLoop (w.walkVisits out) [] = ((walkLoop (w.walkVisits out) []).1, none) := by
    rw [← hw]
  have htv := TranscodeVideo_of_dirs w b fp out f ch hd _ hfiles
  have hperm := errChanContents_conversions_perm w fp out f ch
  have htrace : errChanContents (TranscodeVideo w b fp out f ch).1 =
      errChanContents (conversions w fp out f ch) := by
    rw [htv]
    simp [errChanContents_append, errChanContents_map_mkdirAll, errChanContents_uploadLoop,
      errChanContents]
  refine ⟨_, by rw [htv], ?_⟩
  rw [htrace]
  cases h480 : w.run480 with
  | none =>
    cases h720 : w.run720 with
    | none =>
      rw [h480, h720] at hperm
      simp only
      rw [List.perm_nil.1 hperm]
      rfl
    | some e720 =>
      rw [h480, h720] at hperm
      simp only
      rw [List.perm_singleton.1 hperm]
      rfl
  | some e480 =>
    cases h720 : w.run720 with
    | none =>
      rw [h480, h720] at hperm
      simp only
      rw [List.perm_singleton.1 hperm]
      rfl
    | some e720 =>
      rw [h480, h720] at hperm
      simp only
      rcases perm_pair_cases hperm with h | h
      · exact Or.inl ⟨h, by rw [h]; rfl⟩
      · exact Or.inr ⟨h, by rw [h]; rfl⟩

/-- C4 on a host where both conversions fail and the 480p goroutine sends first. -/
theorem C4_errors_joined_in_send_order_witness :
    (∀ d ∈ outputDirs bothFail480FirstWorld.separator "./output" "v.mp4",
      bothFail480FirstWorld.mkdirAll d = none) ∧
    (walkLoop (bothFail480FirstWorld.walkVisits "./output") []).2 = none ∧
    ∃ r, (TranscodeVideo bothFail480FirstWorld "media" "./uploads" "./output" "v.mp4" 1).2 =
        Outcome.returned r ∧
      match bothFail480FirstWorld.run480, bothFail480FirstWorld.run720 with
      | none, none => r = none
      | some e480, none => r = some ("failed to transcode 480p: " ++ e480)
      | none, some e720 => r = some ("failed to transcode 720p: " ++ e720)
      | some e480, some e720 =>
        (errChanContents
              (TranscodeVideo bothFail480FirstWorld "media" "./uploads" "./output" "v.mp4" 1).1 =
            ["failed to transcode 480p: " ++ e480, "failed to transcode 720p: " ++ e720] ∧
          r = some ("failed to transcode 480p: " ++ e480 ++ "; " ++
            ("failed to transcode 720p: " ++ e720))) ∨
        (errChanContents
              (TranscodeVideo bothFail480FirstWorld "media" "./uploads" "./output" "v.mp4" 1).1 =
            ["failed to transcode 720p: " ++ e720, "failed to transcode 480p: " ++ e480] ∧
          r = some ("failed to transcode 720p: " ++ e720 ++ "; " ++
            ("failed to transcode 480p: " ++ e480))) :=
  ⟨by intro d _; rfl, by decide,
   C4_errors_joined_in_send_order bothFail480FirstWorld "media" "./uploads" "./output" "v.mp4" 1
     (by intro d _; rfl) (by decide)⟩

/-- C4 as stated fails: when both conversions fail and the 720p goroutine sends its
error first, the returned error lists 720p before 480p, not in declaration order. -/
theorem C4_declaration_order_counterexample :
    (∀ d ∈ outputDirs bothFail720FirstWorld.separator "./output" "v.mp4",
      bothFail720FirstWorld.mkdirAll d = none) ∧
    (walkLoop (bothFail720FirstWorld.walkVisits "./output") []).2 = none ∧
    (TranscodeVideo bothFail720FirstWorld "media" "./uploads" "./output" "v.mp4" 1).2 =
      Outcome.returned
        (some "failed to transcode 720p: exit status 2; failed to transcode 480p: exit status 1") ∧
    (TranscodeVideo bothFail720FirstWorld "media" "./uploads" "./output" "v.mp4" 1).2 ≠
      Outcome.returned
        (some "failed to transcode 480p: exit status 1; failed to transcode 720p: exit status 2") :=
  ⟨by intro d _; rfl, by decide, by decide, by decide⟩

theorem uploadCalls_eq_filterMap (evs : List Event) :
    uploadCalls evs =
      evs.filterMap (fun ev => match ev with
        | Event.uploadFile _ p => some p
        | _ => none) := by
  induction evs with
  | nil => rfl
  | cons ev evs ih => cases ev <;> simp [uploadCalls, ih]

theorem uploadCalls_append (xs ys : List Event) :
    uploadCalls (xs ++ ys) = uploadCalls xs ++ uploadCalls ys := by
  simp [uploadCalls_eq_filterMap]

theorem uploadCalls_map_mkdirAll (ds : List String) :
    uploadCalls (ds.map Event.mkdirAll) = [] := by
  induction ds with
  | nil => rfl
  | cons d ds ih => simpa [uploadCalls] using ih

theorem uploadCalls_conversions (w : World) (fp out f : String) (ch : Nat) :
    uploadCalls (conversions w fp out f ch) = [] := by
  have h := (interleave_perm w.schedule
    (goroutine480p w
      (cmd480p (Join w.separator [fp, f])
        (Join w.separator [Join w.separator [out, "480p", f, "ts"], "480p_%03d.ts"])
        (Join w.separator [out, "480p", f, "ts"])
        (Join w.separator [Join w.separator [out, "480p", f, "m3u8"], "480p.m3u8"])) f ch)
    (goroutine720p w
      (cmd720p (Join w.separator [fp, f])
        (Join w.separator [Join w.separator [out, "720p", f, "ts"], "720p_%03d.ts"])
        (Join w.separator [out, "720p", f, "ts"])
        (Join w.separator [Join w.separator [out, "720p", f, "m3u8"], "720p.m3u8"])) f ch)).filterMap
      (fun ev => match ev with
        | Event.uploadFile _ p => some p
        | _ => none)
  rw [← uploadCalls_eq_filterMap, ← uploadCalls_eq_filterMap, uploadCalls_append] at h
  have h1 : ∀ cmd, uploadCalls (goroutine480p w cmd f ch) = [] := by
    intro cmd
    cases hr : w.run480 <;> simp [goroutine480p, hr, uploadCalls]
  have h2 : ∀ cmd, uploadCalls (goroutine720p w cmd f ch) = [] := by
    intro cmd
    cases hr : w.run720 <;> simp [goroutine720p, hr, uploadCalls]
  rw [h1, h2] at h
  exact List.perm_nil.1 h

theorem uploadCalls_uploadLoop (w : World) (b : String) (i : Nat) (files : List String) :
    uploadCalls (uploadLoop w b i files) = files := by
  induction files generalizing i with
  | nil => rfl
  | cons p files ih =>
    cases h : w.uploadFileToGridFS i p <;> simp [uploadLoop, h, uploadCalls, ih]

/-- A walk that meets no error collects every visited regular file, in visit order. -/
theorem walkLoop_of_no_error (visits : List WalkEntry) (acc : List String)
    (h : ∀ en ∈ visits, en.err = none) :
    walkLoop visits acc =
      (acc ++ (visits.filter (fun en => !en.isDir)).map (fun en => ".\\" ++ en.path), none) := by
  induction visits generalizing acc with
  | nil => simp [walkLoop]
  | cons en rest ih =>
    have hen : en.err = none := h en (by simp)
    have hrest : ∀ en ∈ rest, en.err = none := fun e he => h e (by simp [he])
    cases hdir : en.isDir <;> simp [walkLoop, walkFn, hen, hdir, ih _ hrest]

/-- C5: with the directories created and a walk without error, `TranscodeVideo` calls
`UploadFileToGridFS` once for each regular file the walk visits, in visit order,
whatever the outcomes of the two conversions and of the uploads. -/
theorem C5_every_enumerated_file_uploaded_once (w : World) (b fp out f : String) (ch : Nat)
    (hd : ∀ d ∈ outputDirs w.separator out f, w.mkdirAll d = none)
    (hw : ∀ en ∈ w.walkVisits out, en.err = none) :
    uploadCalls (TranscodeVideo w b fp out f ch).1 =
      ((w.walkVisits out).filter (fun en => !en.isDir)).map (fun en => ".\\" ++ en.path) := by
  have hfiles := walkLoop_of_no_error (w.walkVisits out) [] hw
  rw [TranscodeVideo_of_dirs w b fp out f ch hd _ hfiles]
  simp [uploadCalls_append, uploadCalls_map_mkdirAll, uploadCalls_conversions,
    uploadCalls_uploadLoop, uploadCalls]

/-- C5 on a host with two files in the output tree, a failed 720p conversion and a
failed first upload: both files are uploaded. -/
theorem C5_every_enumerated_file_uploaded_once_witness :
    (∀ d ∈ outputDirs twoFilesWorld.separator "./output" "v.mp4", twoFilesWorld.mkdirAll d = none) ∧
    (∀ en ∈ twoFilesWorld.walkVisits "./output", en.err = none) ∧
    twoFilesWorld.run720 ≠ none ∧
    twoFilesWorld.uploadFileToGridFS 0 ".\\output\\480p\\v.mp4\\m3u8\\480p.m3u8" ≠ none ∧
    uploadCalls (TranscodeVideo twoFilesWorld "media" "./uploads" "./output" "v.mp4" 1).1 =
      [".\\output\\480p\\v.mp4\\m3u8\\480p.m3u8", ".\\output\\480p\\v.mp4\\ts\\480p_000.ts"] :=
  ⟨by intro d _; rfl, by decide, by decide, by decide,
   C5_every_enumerated_file_uploaded_once twoFilesWorld "media" "./uploads" "./output" "v.mp4" 1
     (by intro d _; rfl) (by decide)⟩

/-- The spawn loop starts `maxWorkers - i` goroutines, none when that is not positive. -/
theorem spawnWorkers_eq (maxWorkers i : Int) (workers : List WorkerPC) :
    spawnWorkers maxWorkers i workers =
      workers ++ List.replicate (maxWorkers - i).toNat WorkerPC.waiting := by
  generalize hn : (maxWorkers - i).toNat = n
  induction n generalizing i workers with
  | zero =>
    rw [spawnWorkers]
    have : ¬ i < maxWorkers := by omega
    simp [this]
  | succ n ih =>
    rw [spawnWorkers]
    have : i < maxWorkers := by omega
    simp only [this, if_true]
    rw [ih (i + 1) _ (by omega)]
    simp [List.replicate_succ]

theorem WorkerPool_of_Atoi_ok (s : String) (n : Int) (h : Atoi s = Except.ok n) :
    WorkerPool s = Except.ok
      { jobs := []
        results := []
        resultsClosed := (List.replicate n.toNat WorkerPC.waiting).isEmpty
        workers := List.replicate n.toNat WorkerPC.waiting
        exited := false } := by
  simp [WorkerPool, h, spawnWorkers_eq]

theorem WorkerPool_of_Atoi_error (s : String) (e : NumError) (h : Atoi s = Except.error e) :
    WorkerPool s = Except.error e := by
  simp [WorkerPool, h]

/-- C8 as the code has it: `WorkerPool` panics, before starting any worker, exactly when
`strconv.Atoi` rejects the configured string; when the string is an integer `n` it does
not panic and starts `n` workers if `n ≥ 1`, and no worker at all if `n ≤ 0`. -/
theorem C8_panics_iff_not_an_integer (s : String) :
    match Atoi s with
    | Except.error e => WorkerPool s = Except.error e
    | Except.ok n =>
      ∃ p, WorkerPool s = Except.ok p ∧
        p.workers = List.replicate n.toNat WorkerPC.waiting ∧
        (1 ≤ n → (p.workers.length : Int) = n) ∧
        (n ≤ 0 → p.workers = []) := by
  cases h : Atoi s with
  | error e => exact WorkerPool_of_Atoi_error s e h
  | ok n =>
    refine ⟨_, WorkerPool_of_Atoi_ok s n h, rfl, ?_, ?_⟩
    · intro hn
      simp only [List.length_replicate]
      omega
    · intro hn
      have : n.toNat = 0 := by omega
      simp [this]

/-- C8 as stated fails: the worker counts "0" and "-3" are not positive integers, and
`WorkerPool` does not panic on them: it starts no worker and closes `results`. -/
theorem C8_nonpositive_count_counterexample :
    (¬ ∃ n : Int, Atoi "0" = Except.ok n ∧ 1 ≤ n) ∧
    WorkerPool "0" = Except.ok noWorkerPool ∧
    (¬ ∃ n : Int, Atoi "-3" = Except.ok n ∧ 1 ≤ n) ∧
    WorkerPool "-3" = Except.ok noWorkerPool := by
  have h0 : Atoi "0" = Except.ok 0 := rfl
  have h3 : Atoi "-3" = Except.ok (-3) := rfl
  refine ⟨?_, ?_, ?_, ?_⟩
  · rintro ⟨n, hn, hpos⟩
    rw [h0] at hn
    cases hn
    omega
  · rw [WorkerPool_of_Atoi_ok "0" 0 h0]
    rfl
  · rintro ⟨n, hn, hpos⟩
    rw [h3] at hn
    cases hn
    omega
  · rw [WorkerPool_of_Atoi_ok "-3" (-3) h3]
    rfl

/-- What a step does to the parts of the pool the claims are about: it is taken only
while the process runs, it keeps the number of workers, and it leaves `results` as it
is, except for a `push`, which appends one result and needs room for it. -/
theorem step_spec (p q : Pool) (a : Action) (h : step p a = some q) :
    p.exited = false ∧ q.workers.length = p.workers.length ∧
      match a with
      | Action.push _ => p.results.length < 100 ∧ ∃ err, q.results = p.results ++ [err]
      | _ => q.results = p.results := by
  cases a <;> simp only [step] at h <;> (repeat' split at h) <;> simp_all <;>
    (subst h; simp)

/-- Along a run the number of workers stays the same, and `results` holds one entry for
each `push` taken: no step removes one. -/
theorem run_spec (p0 p : Pool) (as : List Action) (h : run p0 as = some p) :
    p.workers.length = p0.workers.length ∧
      p.results.length = p0.results.length + pushCount as ∧
      (p0.results.length ≤ 100 → p.results.length ≤ 100) := by
  induction as generalizing p0 with
  | nil =>
    simp only [run, Option.some.injEq] at h
    subst h
    simp [pushCount]
  | cons a as ih =>
    simp only [run] at h
    cases hs : step p0 a with
    | none => simp [hs] at h
    | some q =>
      rw [hs] at h
      obtain ⟨h1, h2, h3⟩ := ih q h
      obtain ⟨_, hw, hres⟩ := step_spec p0 q a hs
      cases a with
      | push i =>
        obtain ⟨hroom, err, herr⟩ := hres
        have hlen : q.results.length = p0.results.length + 1 := by simp [herr]
        simp only [pushCount]
        exact ⟨by omega, by omega, fun _ => h3 (by omega)⟩
      | enqueue job =>
        have hlen : q.results.length = p0.results.length := by rw [hres]
        simp only [pushCount]
        exact ⟨by omega, by omega, fun hle => h3 (by omega)⟩
      | dequeue i =>
        have hlen : q.results.length = p0.results.length := by rw [hres]
        simp only [pushCount]
        exact ⟨by omega, by omega, fun hle => h3 (by omega)⟩
      | start i =>
        have hlen : q.results.length = p0.results.length := by rw [hres]
        simp only [pushCount]
        exact ⟨by omega, by omega, fun hle => h3 (by omega)⟩
      | finish i w =>
        have hlen : q.results.length = p0.results.length := by rw [hres]
        simp only [pushCount]
        exact ⟨by omega, by omega, fun hle => h3 (by omega)⟩
      | report i =>
        have hlen : q.results.length = p0.results.length := by rw [hres]
        simp only [pushCount]
        exact ⟨by omega, by omega, fun hle => h3 (by omega)⟩

theorem inTranscodeVideo_le_workers (p : Pool) : p.inTranscodeVideo ≤ p.workers.length := by
  unfold Pool.inTranscodeVideo
  exact List.length_filter_le _ _

/-- C9: for a worker count `n ≥ 1`, in every state the pool reaches from its start, by
any sequence of enqueued jobs and worker steps, at most `n` workers, hence at most `n`
jobs, are inside `TranscodeVideo`. -/
theorem C9_at_most_n_jobs_in_TranscodeVideo (s : String) (n : Int)
    (hs : Atoi s = Except.ok n) (hn : 1 ≤ n) (p0 : Pool) (h0 : WorkerPool s = Except.ok p0)
    (as : List Action) (p : Pool) (hr : run p0 as = some p) :
    (p.inTranscodeVideo : Int) ≤ n := by
  rw [WorkerPool_of_Atoi_ok s n hs] at h0
  simp only [Except.ok.injEq] at h0
  have hlen : p.workers.length = n.toNat := by
    rw [(run_spec p0 p as hr).1, ← h0]
    simp
  have := inTranscodeVideo_le_workers p
  omega

/-- C9 on the default worker count "2": after three uploads both workers are inside
`TranscodeVideo`, the third job waits in the queue. -/
theorem C9_at_most_n_jobs_in_TranscodeVideo_witness :
    Atoi (maxWorkersEnv (fun _ => none)) = Except.ok 2 ∧
    run twoWorkerPool twoBusyWorkers = some twoBusyPool ∧
    twoBusyPool.inTranscodeVideo = 2 ∧
    (twoBusyPool.inTranscodeVideo : Int) ≤ 2 :=
  ⟨rfl, by decide, by decide,
   C9_at_most_n_jobs_in_TranscodeVideo "2" 2 rfl (by decide) twoWorkerPool
     (by rw [WorkerPool_of_Atoi_ok "2" 2 rfl]; rfl) twoBusyWorkers twoBusyPool (by decide)⟩

/-- C10 as the code has it: nothing receives from the results channel. In every state
the pipeline reaches, `results` holds one entry for each result pushed so far, at most
100; no step removes an entry; and a worker that is about to push its result can do so
exactly when fewer than 100 results have been pushed. -/
theorem C10_results_are_never_received (s : String) (p0 : Pool)
    (h0 : WorkerPool s = Except.ok p0) (as : List Action) (p : Pool)
    (hr : run p0 as = some p) :
    p.results.length = pushCount as ∧ p.results.length ≤ 100 ∧
      (∀ a q, step p a = some q → p.results <+: q.results) ∧
      (∀ i job err, p.exited = false → p.workers[i]? = some (WorkerPC.sending job err) →
        ((step p (Action.push i)).isSome ↔ p.results.length < 100)) := by
  have hres0 : p0.results = [] := by
    cases hA : Atoi s with
    | error e => rw [WorkerPool_of_Atoi_error s e hA] at h0; cases h0
    | ok n =>
      rw [WorkerPool_of_Atoi_ok s n hA] at h0
      simp only [Except.ok.injEq] at h0
      rw [← h0]
  obtain ⟨_, hcount, hle⟩ := run_spec p0 p as hr
  rw [hres0] at hcount hle
  refine ⟨by simpa using hcount, hle (by simp), ?_, ?_⟩
  · intro a q hstep
    obtain ⟨_, _, hq⟩ := step_spec p q a hstep
    cases a <;> simp only at hq <;> first
      | (obtain ⟨_, err, herr⟩ := hq
         exact ⟨[err], herr.symm⟩)
      | (rw [hq])
  · intro i job err hex hw
    simp [step, hex, hw]

theorem run_append (p : Pool) (as bs : List Action) :
    run p (as ++ bs) = (run p as).bind (fun q => run q bs) := by
  induction as generalizing p with
  | nil => simp [run]
  | cons a as ih =>
    simp only [List.cons_append, run]
    cases step p a with
    | none => simp
    | some q => simpa using ih q

theorem TranscodeVideo_quiet_demoJob :
    (TranscodeVideo quietWorld demoJob.DBBucketName demoJob.UploadPath demoJob.TranscodedPath
      demoJob.Filename demoJob.ClientChan).2 = Outcome.returned none := by
  decide

/-- One job taken through the pipeline by the single worker adds one result. -/
theorem run_oneJobRound (k : Nat) (hk : k < 100) :
    run (poolAfter k) (oneJobRound demoJob quietWorld) = some (poolAfter (k + 1)) := by
  simp [run, step, oneJobRound, poolAfter, TranscodeVideo_quiet_demoJob, hk,
    List.replicate_succ']

theorem run_processJobs (m k : Nat) (h : k + m ≤ 100) :
    run (poolAfter k) (processJobs demoJob quietWorld m) = some (poolAfter (k + m)) := by
  induction m generalizing k with
  | zero => simp [processJobs, run]
  | succ m ih =>
    rw [processJobs, run_append, run_oneJobRound k (by omega)]
    simp only [Option.some_bind]
    rw [ih (k + 1) (by omega)]
    congr 2
    omega

/-- C10 as stated fails: with one worker, after 100 jobs have been processed the results
buffer holds 100 results, none was taken off, and the worker that has finished the next
job cannot push its result: it is blocked at `results <- err`. -/
theorem C10_results_buffer_full_counterexample :
    WorkerPool "1" = Except.ok (poolAfter 0) ∧
    run (poolAfter 0) hundredJobsAndOne = some stuckPool ∧
    stuckPool.workers[0]? = some (WorkerPC.sending demoJob none) ∧
    stuckPool.results.length = 100 ∧
    step stuckPool (Action.push 0) = none := by
  refine ⟨?_, ?_, by decide, by decide, by decide⟩
  · rw [WorkerPool_of_Atoi_ok "1" 1 rfl]
    rfl
  · rw [hundredJobsAndOne, run_append, run_processJobs 100 0 (by omega)]
    decide

/-- C10 as the code has it, on a run with one worker that has its first result ready:
nothing has been pushed yet, the buffer has room and the push can be taken. -/
theorem C10_results_are_never_received_witness :
    WorkerPool "1" = Except.ok (poolAfter 0) ∧
    run (poolAfter 0) firstResultReady = some readyPool ∧
    readyPool.workers[0]? = some (WorkerPC.sending demoJob none) ∧
    readyPool.results.length = pushCount firstResultReady ∧
    readyPool.results.length ≤ 100 ∧
    (∀ a q, step readyPool a = some q → readyPool.results <+: q.results) ∧
    (∀ i job err, readyPool.exited = false →
      readyPool.workers[i]? = some (WorkerPC.sending job err) →
      ((step readyPool (Action.push i)).isSome ↔ readyPool.results.length < 100)) :=
  ⟨by rw [WorkerPool_of_Atoi_ok "1" 1 rfl]; rfl, by decide, by decide,
   C10_results_are_never_received "1" (poolAfter 0) (by rw [WorkerPool_of_Atoi_ok "1" 1 rfl]; rfl)
     firstResultReady readyPool (by decide)⟩

theorem splitPath_ne_nil (sep : Char) (a : List Char) : splitPath sep a ≠ [] := by
  cases a with
  | nil => simp [splitPath]
  | cons c cs =>
    simp only [splitPath]
    split
    · simp
    · split <;> simp

theorem splitPath_append_sep (sep s : Char) (hs : isSeparator sep s = true) (a b : List Char) :
    splitPath sep (a ++ s :: b) = splitPath sep a ++ splitPath sep b := by
  induction a with
  | nil => simp [splitPath, hs]
  | cons c cs ih =>
    simp only [List.cons_append, splitPath, List.append_eq]
    rw [ih]
    split
    · simp
    · rcases hsp : splitPath sep cs with _ | ⟨h, t⟩
      · exact absurd hsp (splitPath_ne_nil sep cs)
      · simp

theorem splitPath_plain (sep : Char) (a : List Char)
    (h : a.all (fun c => !isSeparator sep c) = true) : splitPath sep a = [a] := by
  induction a with
  | nil => rfl
  | cons c cs ih =>
    simp only [List.all_cons, Bool.and_eq_true, Bool.not_eq_true'] at h
    simp [splitPath, h.1, ih h.2]

theorem cleanStep_plain (rooted : Bool) (out : List (List Char)) (c : List Char)
    (h1 : c ≠ []) (h2 : c ≠ ['.']) (h3 : c ≠ ['.', '.']) :
    cleanStep rooted out c = out ++ [c] := by
  simp [cleanStep, h1, h2, h3]


theorem foldl_cleanStep_plain (rooted : Bool) (out : List (List Char)) (cs : List (List Char))
    (h : ∀ c ∈ cs, c ≠ [] ∧ c ≠ ['.'] ∧ c ≠ ['.', '.']) :
    cs.foldl (cleanStep rooted) out = out ++ cs := by
  induction cs generalizing out with
  | nil => simp
  | cons c cs ih =>
    obtain ⟨h1, h2, h3⟩ := h c (by simp)
    rw [List.foldl_cons, cleanStep_plain rooted out c h1 h2 h3,
      ih _ (fun c hc => h c (by simp [hc]))]
    simp

theorem isPlainName_iff (sep : Char) (name : String) :
    isPlainName sep name = true ↔
      name.data ≠ [] ∧ name.data ≠ ['.'] ∧ name.data ≠ ['.', '.'] ∧
        name.data.all (fun c => !isSeparator sep c) = true := by
  simp [isPlainName, and_assoc]

theorem isSeparator_self (sep : Char) : isSeparator sep sep = true := by
  simp [isSeparator]

theorem intercalate_cons_cons_chars (s x y : List Char) (l : List (List Char)) :
    List.intercalate s (x :: y :: l) = x ++ s ++ List.intercalate s (y :: l) := by
  simp [List.intercalate]

theorem intercalate_append_chars (s : List Char) (C N : List (List Char)) (hN : N ≠ []) :
    List.intercalate s (C ++ N) =
      (if C = [] then [] else List.intercalate s C ++ s) ++ List.intercalate s N := by
  induction C with
  | nil => simp
  | cons x C ih =>
    cases C with
    | nil =>
      cases N with
      | nil => exact absurd rfl hN
      | cons n N => simp [List.intercalate]
    | cons y C =>
      rw [List.cons_append, List.cons_append, intercalate_cons_cons_chars, ← List.cons_append, ih]
      simp [intercalate_cons_cons_chars]

/-- Splitting a path made of single components gives the components back. -/
theorem splitPath_intercalate (sep : Char) (N : List (List Char)) (hN : N ≠ [])
    (h : ∀ n ∈ N, n.all (fun c => !isSeparator sep c) = true) :
    splitPath sep (List.intercalate [sep] N) = N := by
  induction N with
  | nil => exact absurd rfl hN
  | cons n N ih =>
    cases N with
    | nil => simpa [List.intercalate] using splitPath_plain sep n (h n (by simp))
    | cons m N =>
      rw [intercalate_cons_cons_chars, List.append_assoc, List.singleton_append,
        splitPath_append_sep sep sep (isSeparator_self sep),
        splitPath_plain sep n (h n (by simp)), ih (by simp) (fun x hx => h x (by simp [hx]))]
      rfl

theorem Clean_data_of_split (sep c : Char) (cs : List Char) (S0 N : List (List Char))
    (hN : N ≠ []) (hplain : ∀ n ∈ N, n ≠ [] ∧ n ≠ ['.'] ∧ n ≠ ['.', '.'])
    (hS : splitPath sep (c :: cs) = S0 ++ N) :
    (Clean sep (String.mk (c :: cs))).data =
      ((if isSeparator sep c = true then [sep] else []) ++
        (if S0.foldl (cleanStep (isSeparator sep c)) [] = [] then []
         else List.intercalate [sep] (S0.foldl (cleanStep (isSeparator sep c)) []) ++ [sep])) ++
      List.intercalate [sep] N := by
  have hfold : (splitPath sep (c :: cs)).foldl (cleanStep (isSeparator sep c)) [] =
      S0.foldl (cleanStep (isSeparator sep c)) [] ++ N := by
    rw [hS, List.foldl_append, foldl_cleanStep_plain _ _ _ hplain]
  simp only [Clean]
  rw [hfold]
  have hne : S0.foldl (cleanStep (isSeparator sep c)) [] ++ N ≠ [] := by
    simp [hN]
  rw [if_neg hne, intercalate_append_chars _ _ _ hN]
  cases isSeparator sep c <;> simp

/-- The characters of `filepath.Join(out, names...)` for single components `names`: a
beginning that depends on `out` only, then the components between separators. -/
theorem Join_plain_names (sep : Char) (out : String) :
    ∃ P : List Char, ∀ N : List String, N ≠ [] → (∀ n ∈ N, isPlainName sep n = true) →
      (Join sep (out :: N)).data = P ++ List.intercalate [sep] (N.map String.data) := by
  have hfilter : ∀ N : List String, (∀ n ∈ N, isPlainName sep n = true) →
      N.filter (fun e => decide (e.data ≠ [])) = N := by
    intro N hN
    rw [List.filter_eq_self]
    intro n hn
    simpa using ((isPlainName_iff sep n).1 (hN n hn)).1
  have hchars : ∀ N : List String, (∀ n ∈ N, isPlainName sep n = true) →
      ∀ n ∈ N.map String.data, n.all (fun c => !isSeparator sep c) = true := by
    intro N hN n hn
    obtain ⟨m, hm, rfl⟩ := List.mem_map.1 hn
    exact ((isPlainName_iff sep m).1 (hN m hm)).2.2.2
  have hdots : ∀ N : List String, (∀ n ∈ N, isPlainName sep n = true) →
      ∀ n ∈ N.map String.data, n ≠ [] ∧ n ≠ ['.'] ∧ n ≠ ['.', '.'] := by
    intro N hN n hn
    obtain ⟨m, hm, rfl⟩ := List.mem_map.1 hn
    obtain ⟨h1, h2, h3, _⟩ := (isPlainName_iff sep m).1 (hN m hm)
    exact ⟨h1, h2, h3⟩
  rcases hout : out.data with _ | ⟨c, cs⟩
  · refine ⟨[], ?_⟩
    intro N hne hN
    have hmapne : N.map String.data ≠ [] := by simpa using hne
    have hf : (out :: N).filter (fun e => decide (e.data ≠ [])) = N := by
      rw [List.filter_cons_of_neg (by simp [hout]), hfilter N hN]
    have hjoin : Join sep (out :: N) =
        Clean sep (String.mk (List.intercalate [sep] (N.map String.data))) := by
      cases N with
      | nil => exact absurd rfl hne
      | cons n N => simp only [Join, hf]
    rcases hI : List.intercalate [sep] (N.map String.data) with _ | ⟨d, ds⟩
    · exfalso
      have := splitPath_intercalate sep _ hmapne (hchars N hN)
      rw [hI] at this
      cases N with
      | nil => exact hne rfl
      | cons n N =>
        simp only [splitPath, List.map_cons] at this
        have h1 := (hdots (n :: N) hN n.data (by simp)).1
        simp only [List.cons.injEq] at this
        exact h1 this.1.symm
    · have hS : splitPath sep (d :: ds) = [] ++ N.map String.data := by
        rw [← hI, splitPath_intercalate sep _ hmapne (hchars N hN)]
        rfl
      rw [hjoin, hI, Clean_data_of_split sep d ds [] _ hmapne (hdots N hN) hS, ← hI]
      have hd : isSeparator sep d = false := by
        cases N with
        | nil => exact absurd rfl hne
        | cons n N =>
          have hn := hchars (n :: N) hN n.data (by simp)
          have h1 := (hdots (n :: N) hN n.data (by simp)).1
          rcases hnd : n.data with _ | ⟨e, es⟩
          · exact absurd hnd h1
          · have hde : d = e := by
              cases N with
              | nil =>
                simp only [List.map_cons, List.map_nil, hnd] at hI
                have hI2 : e :: es = d :: ds := by simpa [List.intercalate] using hI
                simp only [List.cons.injEq] at hI2
                exact hI2.1.symm
              | cons m N =>
                rw [List.map_cons, List.map_cons, intercalate_cons_cons_chars, hnd] at hI
                simp only [List.cons_append, List.cons.injEq] at hI
                exact hI.1.symm
            rw [hnd] at hn
            simp only [List.all_cons, Bool.and_eq_true, Bool.not_eq_true'] at hn
            rw [hde]
            exact hn.1
      simp [hd]
  · refine ⟨(if isSeparator sep c = true then [sep] else []) ++
        (if (splitPath sep (c :: cs)).foldl (cleanStep (isSeparator sep c)) [] = [] then []
         else List.intercalate [sep]
          ((splitPath sep (c :: cs)).foldl (cleanStep (isSeparator sep c)) []) ++ [sep]), ?_⟩
    intro N hne hN
    have hmapne : N.map String.data ≠ [] := by simpa using hne
    have hf : (out :: N).filter (fun e => decide (e.data ≠ [])) = out :: N := by
      rw [List.filter_cons_of_pos (by simp [hout]), hfilter N hN]
    have hjoin : Join sep (out :: N) =
        Clean sep (String.mk (c :: (cs ++ sep :: List.intercalate [sep] (N.map String.data)))) := by
      cases N with
      | nil => exact absurd rfl hne
      | cons n N =>
        simp only [Join, hf, List.map_cons, hout]
        rw [intercalate_cons_cons_chars]
        simp
    have hS : splitPath sep (c :: (cs ++ sep :: List.intercalate [sep] (N.map String.data))) =
        splitPath sep (c :: cs) ++ N.map String.data := by
      rw [← List.cons_append, splitPath_append_sep sep sep (isSeparator_self sep),
        splitPath_intercalate sep _ hmapne (hchars N hN)]
    rw [hjoin, Clean_data_of_split sep c _ _ _ hmapne (hdots N hN) hS]


/-- Two paths that begin with a separator-free component followed by a separator begin
with the same component when they are equal. -/
theorem plain_component_unique (sep : Char) (a b : List Char) (s t : Char) (x y : List Char)
    (ha : a.all (fun c => !isSeparator sep c) = true)
    (hb : b.all (fun c => !isSeparator sep c) = true)
    (hs : isSeparator sep s = true) (ht : isSeparator sep t = true)
    (h : a ++ s :: x = b ++ t :: y) : a = b ∧ x = y := by
  induction a generalizing b with
  | nil =>
    cases b with
    | nil =>
      simp only [List.nil_append, List.cons.injEq] at h
      exact ⟨rfl, h.2⟩
    | cons c b =>
      exfalso
      simp only [List.nil_append, List.cons_append, List.cons.injEq] at h
      simp only [List.all_cons, Bool.and_eq_true, Bool.not_eq_true'] at hb
      rw [← h.1, hs] at hb
      exact absurd hb.1 (by decide)
  | cons c a ih =>
    cases b with
    | nil =>
      exfalso
      simp only [List.nil_append, List.cons_append, List.cons.injEq] at h
      simp only [List.all_cons, Bool.and_eq_true, Bool.not_eq_true'] at ha
      rw [h.1, ht] at ha
      exact absurd ha.1 (by decide)
    | cons d b =>
      simp only [List.cons_append, List.cons.injEq] at h
      simp only [List.all_cons, Bool.and_eq_true] at ha hb
      obtain ⟨hab, hxy⟩ := ih b ha.2 hb.2 h.2
      exact ⟨by rw [h.1, hab], hxy⟩

theorem insideDir_spec (sep : Char) (dir path : String) (h : insideDir sep dir path = true) :
    ∃ rest, path.data = dir.data ++ rest ∧
      ∃ s x, rest ++ [sep] = s :: x ∧ isSeparator sep s = true := by
  simp only [insideDir, Bool.and_eq_true] at h
  obtain ⟨hpre, hsep⟩ := h
  obtain ⟨rest, hrest⟩ := List.isPrefixOf_iff_prefix.1 hpre
  refine ⟨rest, hrest.symm, ?_⟩
  rw [← hrest, List.drop_left] at hsep
  cases rest with
  | nil => exact ⟨sep, [], rfl, isSeparator_self sep⟩
  | cons s x => exact ⟨s, x ++ [sep], rfl, hsep⟩

/-- The output directories of two jobs with distinct file names share no path. -/
theorem jobDirs_disjoint (sep : Char) (hsep : sep = '/' ∨ sep = '\\') (out f g : String)
    (hf : isPlainName sep f = true) (hg : isPlainName sep g = true) (hfg : f ≠ g) :
    ∀ d ∈ jobDirs sep out f, ∀ e ∈ jobDirs sep out g, ∀ path : String,
      ¬ (insideDir sep d path = true ∧ insideDir sep e path = true) := by
  obtain ⟨P, hP⟩ := Join_plain_names sep out
  have h480 : isPlainName sep "480p" = true := by rcases hsep with rfl | rfl <;> decide
  have h720 : isPlainName sep "720p" = true := by rcases hsep with rfl | rfl <;> decide
  have hshape : ∀ q n : String, isPlainName sep q = true → isPlainName sep n = true →
      (Join sep [out, q, n]).data = P ++ (q.data ++ sep :: n.data) := by
    intro q n hq hn
    rw [hP [q, n] (by simp) (by
      intro m hm
      simp only [List.mem_cons, List.mem_singleton, List.not_mem_nil, or_false] at hm
      rcases hm with rfl | rfl
      · exact hq
      · exact hn)]
    simp [List.intercalate]
  have key : ∀ q r : String, isPlainName sep q = true → isPlainName sep r = true →
      ∀ path : String, ¬ (insideDir sep (Join sep [out, q, f]) path = true ∧
        insideDir sep (Join sep [out, r, g]) path = true) := by
    intro q r hq hr path ⟨h1, h2⟩
    obtain ⟨rest1, hp1, s1, x1, hs1, hsep1⟩ := insideDir_spec sep _ path h1
    obtain ⟨rest2, hp2, s2, x2, hs2, hsep2⟩ := insideDir_spec sep _ path h2
    rw [hshape q f hq hf] at hp1
    rw [hshape r g hr hg] at hp2
    have heq : q.data ++ sep :: (f.data ++ rest1) = r.data ++ sep :: (g.data ++ rest2) := by
      have := hp1.symm.trans hp2
      simp only [List.append_assoc, List.cons_append] at this
      exact List.append_cancel_left this
    obtain ⟨_, hfg2⟩ := plain_component_unique sep q.data r.data sep sep _ _
      ((isPlainName_iff sep q).1 hq).2.2.2 ((isPlainName_iff sep r).1 hr).2.2.2
      (isSeparator_self sep) (isSeparator_self sep) heq
    have heq2 : f.data ++ s1 :: x1 = g.data ++ s2 :: x2 := by
      rw [← hs1, ← hs2, ← List.append_assoc, ← List.append_assoc, hfg2]
    obtain ⟨hfg3, _⟩ := plain_component_unique sep f.data g.data s1 s2 _ _
      ((isPlainName_iff sep f).1 hf).2.2.2 ((isPlainName_iff sep g).1 hg).2.2.2
      hsep1 hsep2 heq2
    exact hfg (String.ext hfg3)
  intro d hd e he path
  simp only [jobDirs, List.mem_cons, List.mem_singleton, List.not_mem_nil, or_false] at hd he
  rcases hd with rfl | rfl <;> rcases he with rfl | rfl
  · exact key "480p" "480p" h480 h480 path
  · exact key "480p" "720p" h480 h720 path
  · exact key "720p" "480p" h720 h480 path
  · exact key "720p" "720p" h720 h720 path

/-- The name under which a file handed over by the walk is stored: the walk puts `.\`
in front of the path, so the prefix `./output/` is never found and nothing is trimmed. -/
theorem relPath_of_walk_path (path : String) :
    relPath (".\\" ++ path) = "./" ++ NormalizePath path := by
  have hdata : (".\\" ++ path).data = '.' :: '\\' :: path.data := by
    rw [String.data_append]
    rfl
  have hpre : ("./output/" : String).data.isPrefixOf (".\\" ++ path).data = false := by
    rw [hdata]
    show List.isPrefixOf ('.' :: '/' :: "output/".data) ('.' :: '\\' :: path.data) = false
    simp [List.isPrefixOf]
  apply String.ext
  simp only [relPath, TrimPrefix, hpre, NormalizePath, hdata, String.data_append]
  simp

/-- C6, evaluated on the playlist the walk of `./output` finds at
`./output/480p/v.mp4/m3u8/480p.m3u8`: the walk reports it as
`output\480p\v.mp4\m3u8\480p.m3u8` (with `/` on a host whose separator is `/`),
`TranscodeVideo` passes that path with `.\` in front to `UploadFileToGridFS`, and the
name it is stored under is the whole path `./output/480p/v.mp4/m3u8/480p.m3u8`, not the
path relative to the output root: the prefix is not trimmed. -/
theorem C6_output_prefix_is_not_trimmed :
    walkPath '\\' "./output" ["480p", "v.mp4", "m3u8", "480p.m3u8"] =
      "output\\480p\\v.mp4\\m3u8\\480p.m3u8" ∧
    uploadCalls (TranscodeVideo twoFilesWorld "media" "./uploads" "./output" "v.mp4" 1).1 =
      [".\\output\\480p\\v.mp4\\m3u8\\480p.m3u8", ".\\output\\480p\\v.mp4\\ts\\480p_000.ts"] ∧
    relPath ".\\output\\480p\\v.mp4\\m3u8\\480p.m3u8" = "./output/480p/v.mp4/m3u8/480p.m3u8" ∧
    relPath ".\\output\\480p\\v.mp4\\m3u8\\480p.m3u8" ≠ "480p/v.mp4/m3u8/480p.m3u8" ∧
    relPath (".\\" ++ walkPath '/' "./output" ["480p", "v.mp4", "m3u8", "480p.m3u8"]) =
      "./output/480p/v.mp4/m3u8/480p.m3u8" := by
  decide

/-- C7 as the code has it: for two jobs with distinct file names (single path
components), the output directories of the one share no path with those of the other;
but the walk starts at the output root, so the job uploads every regular file the walk
of the whole output root visits, and the list is the same for both jobs. -/
theorem C7_walk_covers_the_whole_output_root (w : World) (b fp out f g : String) (ch : Nat)
    (hsep : w.separator = '/' ∨ w.separator = '\\')
    (hf : isPlainName w.separator f = true) (hg : isPlainName w.separator g = true)
    (hfg : f ≠ g)
    (hdf : ∀ d ∈ outputDirs w.separator out f, w.mkdirAll d = none)
    (hdg : ∀ d ∈ outputDirs w.separator out g, w.mkdirAll d = none)
    (hw : ∀ en ∈ w.walkVisits out, en.err = none) :
    (∀ d ∈ jobDirs w.separator out f, ∀ e ∈ jobDirs w.separator out g, ∀ path : String,
      ¬ (insideDir w.separator d path = true ∧ insideDir w.separator e path = true)) ∧
    uploadCalls (TranscodeVideo w b fp out f ch).1 =
      ((w.walkVisits out).filter (fun en => !en.isDir)).map (fun en => ".\\" ++ en.path) ∧
    uploadCalls (TranscodeVideo w b fp out f ch).1 =
      uploadCalls (TranscodeVideo w b fp out g ch).1 := by
  have hfiles := walkLoop_of_no_error (w.walkVisits out) [] hw
  have huploads : ∀ name : String, (∀ d ∈ outputDirs w.separator out name, w.mkdirAll d = none) →
      uploadCalls (TranscodeVideo w b fp out name ch).1 =
        ((w.walkVisits out).filter (fun en => !en.isDir)).map (fun en => ".\\" ++ en.path) := by
    intro name hd
    rw [TranscodeVideo_of_dirs w b fp out name ch hd _ hfiles]
    simp [uploadCalls_append, uploadCalls_map_mkdirAll, uploadCalls_conversions,
      uploadCalls_uploadLoop, uploadCalls]
  exact ⟨jobDirs_disjoint w.separator hsep out f g hf hg hfg, huploads f hdf,
    by rw [huploads f hdf, huploads g hdg]⟩

/-- C7 as the code has it, on a host whose output tree holds a segment of the job for
`v.mp4` and one of the job for `w.mp4`: either job uploads both. -/
theorem C7_walk_covers_the_whole_output_root_witness :
    isPlainName sharedTreeWorld.separator "v.mp4" = true ∧
    isPlainName sharedTreeWorld.separator "w.mp4" = true ∧
    (∀ d ∈ jobDirs sharedTreeWorld.separator "./output" "v.mp4",
      ∀ e ∈ jobDirs sharedTreeWorld.separator "./output" "w.mp4", ∀ path : String,
      ¬ (insideDir sharedTreeWorld.separator d path = true ∧
        insideDir sharedTreeWorld.separator e path = true)) ∧
    uploadCalls (TranscodeVideo sharedTreeWorld "media" "./uploads" "./output" "v.mp4" 1).1 =
      [".\\output\\480p\\v.mp4\\ts\\480p_000.ts", ".\\output\\480p\\w.mp4\\ts\\480p_000.ts"] ∧
    uploadCalls (TranscodeVideo sharedTreeWorld "media" "./uploads" "./output" "v.mp4" 1).1 =
      uploadCalls (TranscodeVideo sharedTreeWorld "media" "./uploads" "./output" "w.mp4" 1).1 :=
  ⟨by decide, by decide,
   C7_walk_covers_the_whole_output_root sharedTreeWorld "media" "./uploads" "./output" "v.mp4"
     "w.mp4" 1 (Or.inr rfl) (by decide) (by decide) (by decide) (by intro d _; rfl)
     (by intro d _; rfl) (by decide)⟩

/-- C7 as stated fails: the job for `v.mp4` uploads the segment
`output\480p\w.mp4\ts\480p_000.ts`, which lies in the output directory of the job for
`w.mp4` and in none of its own. -/
theorem C7_uploads_other_jobs_files_counterexample :
    "v.mp4" ≠ "w.mp4" ∧
    ".\\output\\480p\\w.mp4\\ts\\480p_000.ts" ∈
      uploadCalls (TranscodeVideo sharedTreeWorld "media" "./uploads" "./output" "v.mp4" 1).1 ∧
    (∀ d ∈ jobDirs '\\' "./output" "v.mp4",
      insideDir '\\' d "output\\480p\\w.mp4\\ts\\480p_000.ts" = false) ∧
    (∃ e ∈ jobDirs '\\' "./output" "w.mp4",
      insideDir '\\' e "output\\480p\\w.mp4\\ts\\480p_000.ts" = true) := by
  decide


theorem statusCalls_eq_filterMap (evs : List Event) :
    statusCalls evs =
      evs.filterMap (fun ev => match ev with
        | Event.sendStatus _ m => some m
        | _ => none) := by
  induction evs with
  | nil => rfl
  | cons ev evs ih => cases ev <;> simp [statusCalls, ih]

theorem statusCalls_append (xs ys : List Event) :
    statusCalls (xs ++ ys) = statusCalls xs ++ statusCalls ys := by
  simp [statusCalls_eq_filterMap]

theorem statusCalls_map_mkdirAll (ds : List String) :
    statusCalls (ds.map Event.mkdirAll) = [] := by
  induction ds with
  | nil => rfl
  | cons d ds ih => simpa [statusCalls] using ih

theorem statusCalls_uploadLoop (w : World) (b : String) (i : Nat) (files : List String) :
    statusCalls (uploadLoop w b i files) = [] := by
  induction files generalizing i with
  | nil => rfl
  | cons p files ih =>
    cases h : w.uploadFileToGridFS i p <;> simp [uploadLoop, h, statusCalls, ih]

/-- The status messages of the two conversion goroutines: the success messages of the
variants that succeeded, in the order the scheduler produced them. -/
theorem statusCalls_conversions_perm (w : World) (fp out f : String) (ch : Nat) :
    (statusCalls (conversions w fp out f ch)).Perm (variantMessages w f) := by
  have h := (interleave_perm w.schedule
    (goroutine480p w
      (cmd480p (Join w.separator [fp, f])
        (Join w.separator [Join w.separator [out, "480p", f, "ts"], "480p_%03d.ts"])
        (Join w.separator [out, "480p", f, "ts"])
        (Join w.separator [Join w.separator [out, "480p", f, "m3u8"], "480p.m3u8"])) f ch)
    (goroutine720p w
      (cmd720p (Join w.separator [fp, f])
        (Join w.separator [Join w.separator [out, "720p", f, "ts"], "720p_%03d.ts"])
        (Join w.separator [out, "720p", f, "ts"])
        (Join w.separator [Join w.separator [out, "720p", f, "m3u8"], "720p.m3u8"])) f ch)).filterMap
      (fun ev => match ev with
        | Event.sendStatus _ m => some m
        | _ => none)
  rw [← statusCalls_eq_filterMap, ← statusCalls_eq_filterMap, statusCalls_append] at h
  have h1 : ∀ cmd, statusCalls (goroutine480p w cmd f ch) =
      match w.run480 with
      | none => ["T4-" ++ f ++ ":OK"]
      | some _ => [] := by
    intro cmd
    cases hr : w.run480 <;> simp [goroutine480p, hr, statusCalls]
  have h2 : ∀ cmd, statusCalls (goroutine720p w cmd f ch) =
      match w.run720 with
      | none => ["T7-" ++ f ++ ":OK"]
      | some _ => [] := by
    intro cmd
    cases hr : w.run720 <;> simp [goroutine720p, hr, statusCalls]
  rw [h1, h2] at h
  exact h

/-- The status messages `TranscodeVideo` publishes once the directories are created are
those of its conversion goroutines, whether or not the walk succeeds. -/
theorem statusCalls_TranscodeVideo (w : World) (b fp out f : String) (ch : Nat)
    (hd : ∀ d ∈ outputDirs w.separator out f, w.mkdirAll d = none) :
    statusCalls (TranscodeVideo w b fp out f ch).1 = statusCalls (conversions w fp out f ch) := by
  rcases walkLoop_cases (w.walkVisits out) with ⟨files, hw⟩ | ⟨files, e, hw⟩
  · rw [TranscodeVideo_of_dirs w b fp out f ch hd files hw]
    simp [statusCalls_append, statusCalls_map_mkdirAll, statusCalls_uploadLoop, statusCalls]
  · rw [TranscodeVideo_of_walk_error w b fp out f ch hd files e hw]
    simp [statusCalls_append, statusCalls_map_mkdirAll, statusCalls]

/-- C12 as the code has it: once the output directories are created, `TranscodeVideo`
publishes one status message for each variant whose conversion succeeded
(`T4-<file>:OK`, `T7-<file>:OK`) and none for a variant whose conversion failed. -/
theorem C12_status_only_for_successful_variants (w : World) (b fp out f : String) (ch : Nat)
    (hd : ∀ d ∈ outputDirs w.separator out f, w.mkdirAll d = none) :
    (statusCalls (TranscodeVideo w b fp out f ch).1).Perm (variantMessages w f) := by
  rw [statusCalls_TranscodeVideo w b fp out f ch hd]
  exact statusCalls_conversions_perm w fp out f ch

/-- C12 as the code has it, on a host where the 480p conversion succeeds and the 720p
conversion fails. -/
theorem C12_status_only_for_successful_variants_witness :
    (∀ d ∈ outputDirs twoFilesWorld.separator "./output" "v.mp4", twoFilesWorld.mkdirAll d = none) ∧
    variantMessages twoFilesWorld "v.mp4" = ["T4-v.mp4:OK"] ∧
    (statusCalls (TranscodeVideo twoFilesWorld "media" "./uploads" "./output" "v.mp4" 1).1).Perm
      (variantMessages twoFilesWorld "v.mp4") :=
  ⟨by intro d _; rfl, by decide,
   C12_status_only_for_successful_variants twoFilesWorld "media" "./uploads" "./output" "v.mp4" 1
     (by intro d _; rfl)⟩

/-- C12 as stated fails: when the 720p conversion fails, the only per-variant status
message of the job is the success message of 480p; no message names the failed variant
(the failure is logged and sent on `errChan`). -/
theorem C12_no_failure_message_counterexample :
    twoFilesWorld.run720 = some "exit status 1" ∧
    statusCalls (TranscodeVideo twoFilesWorld "media" "./uploads" "./output" "v.mp4" 1).1 =
      ["T4-v.mp4:OK"] ∧
    (TranscodeVideo twoFilesWorld "media" "./uploads" "./output" "v.mp4" 1).1.filter
        (fun ev => decide (ev = Event.logPrintf "FFmpeg 720p error: " ∨
          ev = Event.errChanSend "failed to transcode 720p: exit status 1")) =
      [Event.logPrintf "FFmpeg 720p error: ",
       Event.errChanSend "failed to transcode 720p: exit status 1"] := by
  decide

/-- The worker's effects for a job whose `TranscodeVideo` call returns: the start
message, the effects of the call, the terminal message and the send on `results`. -/
theorem processJob_of_returned (w : World) (job : Job) (evs : List Event) (r : GoError)
    (h : TranscodeVideo w job.DBBucketName job.UploadPath job.TranscodedPath job.Filename
      job.ClientChan = (evs, Outcome.returned r)) :
    processJob w job =
      (Event.sendStatus job.ClientChan ("TS-" ++ job.Filename ++ ":OK") :: evs ++
        [Event.sendStatus job.ClientChan (terminalMessage job.Filename r), Event.resultsSend r],
       Outcome.returned r) := by
  cases r <;> simp [processJob, h, terminalMessage]

/-- The worker's effects for a job whose `TranscodeVideo` call ends the process. -/
theorem processJob_of_exited (w : World) (job : Job) (evs : List Event) (code : Nat)
    (h : TranscodeVideo w job.DBBucketName job.UploadPath job.TranscodedPath job.Filename
      job.ClientChan = (evs, Outcome.exited code)) :
    processJob w job =
      (Event.sendStatus job.ClientChan ("TS-" ++ job.Filename ++ ":OK") :: evs,
       Outcome.exited code) := by
  simp [processJob, h]

/-- C11 as the code has it: for a job whose output directories are created, and every
interleaving of the two conversions, the worker publishes the start message first, then
the success messages of the variants that succeeded, in some order; when the walk of the
output tree meets no error, `TranscodeVideo` returns and exactly one terminal message
follows, last: `TC-<file>:OK` for `nil`, `TF-<file>:<error>` for an error; when the walk
meets an error the process exits at `log.Fatalf` and no terminal message is published. -/
theorem C11_start_then_variants_then_terminal (w : World) (job : Job)
    (hd : ∀ d ∈ outputDirs w.separator job.TranscodedPath job.Filename, w.mkdirAll d = none) :
    ∃ variantMsgs : List String,
      variantMsgs.Perm (variantMessages w job.Filename) ∧
      ((walkLoop (w.walkVisits job.TranscodedPath) []).2 = none →
        ∃ r, (processJob w job).2 = Outcome.returned r ∧
          statusCalls (processJob w job).1 =
            ["TS-" ++ job.Filename ++ ":OK"] ++ variantMsgs ++
              [terminalMessage job.Filename r]) ∧
      ((walkLoop (w.walkVisits job.TranscodedPath) []).2 ≠ none →
        (processJob w job).2 = Outcome.exited 1 ∧
          statusCalls (processJob w job).1 =
            ["TS-" ++ job.Filename ++ ":OK"] ++ variantMsgs) := by
  refine ⟨statusCalls (TranscodeVideo w job.DBBucketName job.UploadPath job.TranscodedPath
    job.Filename job.ClientChan).1,
    by
      rw [statusCalls_TranscodeVideo w _ _ _ _ _ hd]
      exact statusCalls_conversions_perm w _ _ _ _, ?_, ?_⟩
  · intro hw
    have hfiles : walkLoop (w.walkVisits job.TranscodedPath) [] =
        ((walkLoop (w.walkVisits job.TranscodedPath) []).1, none) := by
      rw [← hw]
    have htv := TranscodeVideo_of_dirs w job.DBBucketName job.UploadPath job.TranscodedPath
      job.Filename job.ClientChan hd _ hfiles
    refine ⟨_, by rw [processJob_of_returned w job _ _ htv], ?_⟩
    rw [processJob_of_returned w job _ _ htv, htv]
    simp [statusCalls, statusCalls_append]
  · intro hw
    rcases walkLoop_cases (w.walkVisits job.TranscodedPath) with ⟨files, hf⟩ | ⟨files, e, hf⟩
    · rw [hf] at hw
      exact absurd rfl hw
    · have htv := TranscodeVideo_of_walk_error w job.DBBucketName job.UploadPath
        job.TranscodedPath job.Filename job.ClientChan hd files e hf
      rw [processJob_of_exited w job _ _ htv, htv]
      simp [statusCalls]

/-- C11 as the code has it, on a job whose 480p conversion succeeds and whose 720p
conversion fails: start message, 480p success message, failure terminal message. -/
theorem C11_start_then_variants_then_terminal_witness :
    (∀ d ∈ outputDirs twoFilesWorld.separator demoJob.TranscodedPath demoJob.Filename,
      twoFilesWorld.mkdirAll d = none) ∧
    statusCalls (processJob twoFilesWorld demoJob).1 =
      ["TS-v.mp4:OK", "T4-v.mp4:OK", "TF-v.mp4:failed to transcode 720p: exit status 1"] ∧
    ∃ variantMsgs : List String,
      variantMsgs.Perm (variantMessages twoFilesWorld demoJob.Filename) ∧
      ((walkLoop (twoFilesWorld.walkVisits demoJob.TranscodedPath) []).2 = none →
        ∃ r, (processJob twoFilesWorld demoJob).2 = Outcome.returned r ∧
          statusCalls (processJob twoFilesWorld demoJob).1 =
            ["TS-" ++ demoJob.Filename ++ ":OK"] ++ variantMsgs ++
              [terminalMessage demoJob.Filename r]) ∧
      ((walkLoop (twoFilesWorld.walkVisits demoJob.TranscodedPath) []).2 ≠ none →
        (processJob twoFilesWorld demoJob).2 = Outcome.exited 1 ∧
          statusCalls (processJob twoFilesWorld demoJob).1 =
            ["TS-" ++ demoJob.Filename ++ ":OK"] ++ variantMsgs) :=
  ⟨by intro d _; rfl, by decide,
   C11_start_then_variants_then_terminal twoFilesWorld demoJob (by intro d _; rfl)⟩

/-- C11 as stated fails: on a host where both conversions succeed and the walk of the
output tree then meets an unreadable directory, the worker publishes the start message
and the two success messages, and the process exits at `log.Fatalf`: there is no
terminal message, and nothing is sent on `results`. -/
theorem C11_no_terminal_message_counterexample :
    (∀ d ∈ outputDirs walkErrorWorld.separator demoJob.TranscodedPath demoJob.Filename,
      walkErrorWorld.mkdirAll d = none) ∧
    (processJob walkErrorWorld demoJob).2 = Outcome.exited 1 ∧
    statusCalls (processJob walkErrorWorld demoJob).1 =
      ["TS-v.mp4:OK", "T4-v.mp4:OK", "T7-v.mp4:OK"] ∧
    resultsSends (processJob walkErrorWorld demoJob).1 = [] ∧
    (processJob walkErrorWorld demoJob).1.getLast? =
      some (Event.logFatalf
        "Error traversing directory: open output\\480p\\w.mp4: Access is denied.") :=
  ⟨by intro d _; rfl, by decide, by decide, by decide, by decide⟩


theorem HubInv_initHub : HubInv initHub := by
  refine ⟨by decide, ?_, rfl, ?_, ?_⟩
  · intro c _; rfl
  · intro c hc; simp [initHub] at hc
  · intro c hc
    simp [initHub] at hc

theorem SendStatusUpdateToClient_inv (h : Hub) (c : Nat) (status : String) (hinv : HubInv h) :
    HubInv (SendStatusUpdateToClient h c status).1 := by
  obtain ⟨h1, h2, h3, h4, h5⟩ := hinv
  unfold SendStatusUpdateToClient
  split
  · rename_i hmem
    split
    · exact ⟨h1, h2, h3, h4, h5⟩
    · rename_i hc0
      split
      · exact ⟨h1, h2, h3, h4, h5⟩
      · split
        · rename_i hlen
          have hs := h4 c hmem
          obtain ⟨hclosed, hcap, _⟩ := h5 c (Or.inr hs)
          refine ⟨h1, ?_, ?_, ?_, ?_⟩
          · intro k hk
            by_cases hkc : k = c
            · subst hkc; simp [Function.update_same, h2 k hk]
            · simp [Function.update_noteq hkc, h2 k hk]
          · simp [Function.update_noteq (Ne.symm hc0), h3]
          · intro k hk
            by_cases hkc : k = c
            · subst hkc; simp [Function.update_same, hs]
            · simp [Function.update_noteq hkc, h4 k hk]
          · intro k hk
            by_cases hkc : k = c
            · subst hkc
              simp only [Function.update_same] at hk ⊢
              refine ⟨hclosed, hcap, ?_⟩
              simp only [List.length_append, List.length_singleton]
              omega
            · simp only [Function.update_noteq hkc] at hk ⊢
              exact h5 k hk
        · exact ⟨h1, h2, h3, h4, h5⟩
  · exact ⟨h1, h2, h3, h4, h5⟩


theorem hubStep_inv (h h' : Hub) (a : HubAction) (hinv : HubInv h) (hstep : hubStep h a = some h') :
    HubInv h' := by
  cases a with
  | connect =>
    obtain ⟨h1, h2, h3, h4, h5⟩ := hinv
    simp only [hubStep, Option.some.injEq] at hstep
    subst hstep
    have hn0 : (0 : Nat) ≠ h.next := by omega
    refine ⟨by simp, ?_, ?_, ?_, ?_⟩
    · intro k hk
      have hkn : k ≠ h.next := by simp only at hk; omega
      simp only [Function.update_noteq hkn]
      exact h2 k (by simp only at hk; omega)
    · simp only [Function.update_noteq hn0]
      exact h3
    · intro k hk
      have hs := h4 k hk
      have hkn : k ≠ h.next := by
        intro hkn
        rw [hkn, h2 h.next (Nat.le_refl _)] at hs
        cases hs
      simp only [Function.update_noteq hkn]
      exact hs
    · intro k hk
      by_cases hkn : k = h.next
      · subst hkn
        simp [Function.update_same]
      · simp only [Function.update_noteq hkn] at hk ⊢
        exact h5 k hk
  | register c =>
    obtain ⟨h1, h2, h3, h4, h5⟩ := hinv
    simp only [hubStep] at hstep
    split at hstep
    · rename_i hmade
      simp only [Option.some.injEq] at hstep
      subst hstep
      refine ⟨h1, ?_, ?_, ?_, ?_⟩
      · intro k hk
        have hkc : k ≠ c := by
          intro hkc
          have := h2 k hk
          rw [hkc, hmade] at this
          cases this
        simp only [AddClient, Function.update_noteq hkc]
        exact h2 k hk
      · have h0c : (0 : Nat) ≠ c := by
          intro h0c
          rw [← h0c, h3] at hmade
          cases hmade
        simp only [AddClient, Function.update_noteq h0c]
        exact h3
      · intro k hk
        by_cases hkc : k = c
        · subst hkc
          simp [AddClient, Function.update_same]
        · simp only [AddClient, Function.update_noteq hkc]
          apply h4 k
          simp only [AddClient] at hk
          split at hk
          · exact hk
          · simp only [List.mem_cons] at hk
            rcases hk with hk | hk
            · exact absurd hk hkc
            · exact hk
      · intro k hk
        by_cases hkc : k = c
        · subst hkc
          simp only [AddClient, Function.update_same]
          exact h5 k (Or.inl hmade)
        · simp only [AddClient, Function.update_noteq hkc] at hk ⊢
          exact h5 k hk
    · cases hstep
  | receive c =>
    obtain ⟨h1, h2, h3, h4, h5⟩ := hinv
    simp only [hubStep] at hstep
    split at hstep
    · rename_i hstream
      split at hstep
      · cases hstep
      · rename_i m rest hbuf
        simp only [Option.some.injEq] at hstep
        subst hstep
        refine ⟨h1, ?_, ?_, ?_, ?_⟩
        · intro k hk
          by_cases hkc : k = c
          · subst hkc; simp [Function.update_same, h2 k hk]
          · simp [Function.update_noteq hkc, h2 k hk]
        · by_cases h0c : (0 : Nat) = c
          · subst h0c; simp [Function.update_same, h3]
          · simp [Function.update_noteq h0c, h3]
        · intro k hk
          by_cases hkc : k = c
          · subst hkc; simp [Function.update_same, hstream]
          · simp [Function.update_noteq hkc, h4 k hk]
        · intro k hk
          by_cases hkc : k = c
          · subst hkc
            simp only [Function.update_same] at hk ⊢
            obtain ⟨hcl, hcap, hlen⟩ := h5 k hk
            refine ⟨hcl, hcap, ?_⟩
            rw [hbuf] at hlen
            simp only [List.length_cons] at hlen
            omega
          · simp only [Function.update_noteq hkc] at hk ⊢
            exact h5 k hk
    · cases hstep
  | remove c =>
    obtain ⟨h1, h2, h3, h4, h5⟩ := hinv
    simp only [hubStep] at hstep
    split at hstep
    · rename_i hstream
      simp only [Option.some.injEq] at hstep
      subst hstep
      refine ⟨h1, ?_, ?_, ?_, ?_⟩
      · intro k hk
        have hkc : k ≠ c := by
          intro hkc
          have := h2 k hk
          rw [hkc, hstream] at this
          cases this
        simp only [RemoveClient, Function.update_noteq hkc]
        exact h2 k hk
      · have h0c : (0 : Nat) ≠ c := by
          intro h0c
          rw [← h0c, h3] at hstream
          cases hstream
        simp only [RemoveClient, Function.update_noteq h0c]
        exact h3
      · intro k hk
        simp only [RemoveClient, List.mem_filter, decide_eq_true_eq] at hk
        simp only [RemoveClient, Function.update_noteq hk.2]
        exact h4 k hk.1
      · intro k hk
        by_cases hkc : k = c
        · subst hkc
          simp [RemoveClient, Function.update_same] at hk
        · simp only [RemoveClient, Function.update_noteq hkc] at hk ⊢
          exact h5 k hk
    · cases hstep
  | close c =>
    obtain ⟨h1, h2, h3, h4, h5⟩ := hinv
    simp only [hubStep] at hstep
    split at hstep
    · rename_i hrem
      simp only [Option.some.injEq] at hstep
      subst hstep
      refine ⟨h1, ?_, ?_, ?_, ?_⟩
      · intro k hk
        have hkc : k ≠ c := by
          intro hkc
          have := h2 k hk
          rw [hkc, hrem] at this
          cases this
        simp only [Function.update_noteq hkc]
        exact h2 k hk
      · have h0c : (0 : Nat) ≠ c := by
          intro h0c
          rw [← h0c, h3] at hrem
          cases hrem
        simp only [Function.update_noteq h0c]
        exact h3
      · intro k hk
        have hs := h4 k hk
        have hkc : k ≠ c := by
          intro hkc
          rw [hkc, hrem] at hs
          cases hs
        simp only [Function.update_noteq hkc]
        exact hs
      · intro k hk
        by_cases hkc : k = c
        · subst hkc
          simp [Function.update_same] at hk
        · simp only [Function.update_noteq hkc] at hk ⊢
          exact h5 k hk
    · cases hstep
  | send c status =>
    have hsend := SendStatusUpdateToClient_inv h c status hinv
    simp only [hubStep] at hstep
    split at hstep
    · cases hstep
    · rename_i x hx heq
      simp only [Option.some.injEq] at hstep
      subst hstep
      rw [heq] at hsend
      exact hsend

theorem runHub_inv (h h' : Hub) (as : List HubAction) (hinv : HubInv h)
    (hrun : runHub h as = some h') : HubInv h' := by
  induction as generalizing h with
  | nil =>
    simp only [runHub, Option.some.injEq] at hrun
    subst hrun
    exact hinv
  | cons a as ih =>
    simp only [runHub] at hrun
    cases hs : hubStep h a with
    | none => simp [hs] at hrun
    | some h1 =>
      rw [hs] at hrun
      exact ih h1 (hubStep_inv h h1 a hinv hs) hrun

/-- C13: for every state of the hub, a call of `SendStatusUpdateToClient` with a
channel that is not in `clients` (the `nil` channel, a channel already removed, any
other) only logs: it sends nothing and leaves the registry, every channel and every
pending buffer as they were. -/
theorem C13_send_to_unregistered_channel_is_noop (h : Hub) (c : Nat) (status : String)
    (hc : c ∉ h.clients) :
    SendStatusUpdateToClient h c status = (h, SendResult.notRegistered) := by
  simp [SendStatusUpdateToClient, hc]

/-- C13 on the hub before any client has connected, with the `nil` channel that
`currClientChan` holds then. -/
theorem C13_send_to_unregistered_channel_is_noop_witness :
    GetCurrClientChan initHub = 0 ∧ 0 ∉ initHub.clients ∧
    SendStatusUpdateToClient initHub (GetCurrClientChan initHub) "UC-v.mp4:OK" =
      (initHub, SendResult.notRegistered) :=
  ⟨rfl, by decide,
   C13_send_to_unregistered_channel_is_noop initHub (GetCurrClientChan initHub) "UC-v.mp4:OK"
     (by decide)⟩

/-- C14: in every state the hub reaches, for a registered channel `c` with pending
buffer `b` and a message `m`: `b` holds at most 100 messages; when it holds fewer, the
call sends and the buffer becomes `b` followed by `m`; when it holds 100, the call takes
the `default` branch and leaves the hub, and so the buffer, as it was. In both cases the
buffers of the other channels and the registry are unchanged. -/
theorem C14_send_appends_or_drops (as : List HubAction) (h : Hub)
    (hrun : runHub initHub as = some h) (c : Nat) (hc : c ∈ h.clients) (m : String) :
    (h.chans c).buffer.length ≤ 100 ∧
    ((h.chans c).buffer.length < 100 →
      (SendStatusUpdateToClient h c m).2 = SendResult.sent ∧
      ((SendStatusUpdateToClient h c m).1.chans c).buffer = (h.chans c).buffer ++ [m]) ∧
    ((h.chans c).buffer.length = 100 →
      SendStatusUpdateToClient h c m = (h, SendResult.notReady)) ∧
    (∀ d, d ≠ c →
      ((SendStatusUpdateToClient h c m).1.chans d).buffer = (h.chans d).buffer) ∧
    (SendStatusUpdateToClient h c m).1.clients = h.clients := by
  obtain ⟨_, _, h3, h4, h5⟩ := runHub_inv initHub h as HubInv_initHub hrun
  have hs := h4 c hc
  obtain ⟨hclosed, hcap, hlen⟩ := h5 c (Or.inr hs)
  have hc0 : c ≠ 0 := by
    intro hc0
    rw [hc0, h3] at hs
    cases hs
  refine ⟨hlen, ?_, ?_, ?_, ?_⟩
  · intro hlt
    simp [SendStatusUpdateToClient, hc, hc0, hclosed, hcap, hlt]
  · intro heq
    simp [SendStatusUpdateToClient, hc, hc0, hclosed, hcap, heq]
  · intro d hd
    by_cases hlt : (h.chans c).buffer.length < 100
    · simp [SendStatusUpdateToClient, hc, hc0, hclosed, hcap, hlt, Function.update_noteq hd]
    · simp [SendStatusUpdateToClient, hc, hc0, hclosed, hcap, hlt]
  · by_cases hlt : (h.chans c).buffer.length < 100
    · simp [SendStatusUpdateToClient, hc, hc0, hclosed, hcap, hlt]
    · simp [SendStatusUpdateToClient, hc, hc0, hclosed, hcap, hlt]

/-- C14 on the hub where one client has 100 messages pending: a further message is
dropped. -/
theorem C14_send_appends_or_drops_witness :
    ∃ h, runHub initHub fullBufferRun = some h ∧ 1 ∈ h.clients ∧
      (h.chans 1).buffer.length = 100 ∧
      SendStatusUpdateToClient h 1 "TC-v.mp4:OK" = (h, SendResult.notReady) := by
  have hsome : (runHub initHub fullBufferRun).isSome = true := by decide
  obtain ⟨h, hrun⟩ := Option.isSome_iff_exists.1 hsome
  have hclients : (runHub initHub fullBufferRun).map (fun x => x.clients) = some [1] := by
    decide
  have hbuffer : (runHub initHub fullBufferRun).map (fun x => (x.chans 1).buffer.length) =
      some 100 := by
    decide
  rw [hrun] at hclients hbuffer
  simp only [Option.map_some', Option.some.injEq] at hclients hbuffer
  have hmem : 1 ∈ h.clients := by rw [hclients]; simp
  exact ⟨h, hrun, hmem, hbuffer,
    (C14_send_appends_or_drops fullBufferRun h hrun 1 hmem "TC-v.mp4:OK").2.2.1 hbuffer⟩

/-- What `RemoveClient` does, in every state: the channel is no longer in `clients`, the
other registrations are as before, and no channel changes, so the channel removed is
closed afterwards only if it was closed before. -/
theorem RemoveClient_spec (h : Hub) (c : Nat) :
    c ∉ (RemoveClient h c).clients ∧
    (∀ d, d ≠ c → (d ∈ (RemoveClient h c).clients ↔ d ∈ h.clients)) ∧
    (RemoveClient h c).chans = h.chans := by
  refine ⟨?_, ?_, rfl⟩
  · simp [RemoveClient]
  · intro d hd
    simp [RemoveClient, hd]

/-- C15, evaluated on the hub with one registered client: after `RemoveClient` the
channel is out of `clients` and still open; it is the deferred function of
`StatusStreamHandler` that closes it afterwards. -/
theorem C15_RemoveClient_leaves_channel_open :
    ∃ h, runHub initHub oneClientConnected = some h ∧ 1 ∈ h.clients ∧
      (h.chans 1).closed = false ∧
      1 ∉ (RemoveClient h 1).clients ∧
      ((RemoveClient h 1).chans 1).closed = false ∧
      (runHub h [HubAction.remove 1]).map (fun x => (x.chans 1).closed) = some false ∧
      (runHub h [HubAction.remove 1, HubAction.close 1]).map (fun x => (x.chans 1).closed) =
        some true := by
  refine ⟨_, rfl, ?_, ?_, ?_, ?_, ?_, ?_⟩ <;> decide

/-- C17: in every state the hub reaches, every channel in `clients` is open, and no
call of `SendStatusUpdateToClient`, with any channel and any message, sends on a closed
channel. -/
theorem C17_registered_channels_are_open (as : List HubAction) (h : Hub)
    (hrun : runHub initHub as = some h) :
    (∀ c ∈ h.clients, (h.chans c).closed = false) ∧
    ∀ c status, (SendStatusUpdateToClient h c status).2 ≠ SendResult.panicked := by
  obtain ⟨_, _, _, h4, h5⟩ := runHub_inv initHub h as HubInv_initHub hrun
  have hopen : ∀ c ∈ h.clients, (h.chans c).closed = false :=
    fun c hc => (h5 c (Or.inr (h4 c hc))).1
  refine ⟨hopen, ?_⟩
  intro c status
  unfold SendStatusUpdateToClient
  by_cases hc : c ∈ h.clients
  · simp only [hc, if_true, hopen c hc]
    split
    · simp
    · simp only [Bool.false_eq_true, if_false]
      split <;> simp
  · simp [hc]

/-- C17 on a run where a client connects, disconnects and is sent a message after its
channel was closed: the channel is closed and out of `clients`, and the late send
finds it missing. -/
theorem C17_registered_channels_are_open_witness :
    ∃ h, runHub initHub disconnectRun = some h ∧ (h.chans 1).closed = true ∧
      (∀ c ∈ h.clients, (h.chans c).closed = false) ∧
      ∀ c status, (SendStatusUpdateToClient h c status).2 ≠ SendResult.panicked := by
  have hsome : (runHub initHub disconnectRun).isSome = true := by decide
  obtain ⟨h, hrun⟩ := Option.isSome_iff_exists.1 hsome
  have hclosed : (runHub initHub disconnectRun).map (fun x => (x.chans 1).closed) =
      some true := by
    decide
  rw [hrun] at hclosed
  simp only [Option.map_some', Option.some.injEq] at hclosed
  exact ⟨h, hrun, hclosed, C17_registered_channels_are_open disconnectRun h hrun⟩

/-- C16, evaluated on the request path `/output/480p/v.mp4/ts`: it splits into five
pieces, so the check `len(parts) < 5` passes, and the read of `parts[5]` is out of range:
the handler panics instead of answering 400. -/
theorem C16_ServeHLS_index_out_of_range :
    Split "/output/480p/v.mp4/ts" = ["", "output", "480p", "v.mp4", "ts"] ∧
    ServeHLS (LoadConfig (fun _ => none)) "/output/480p/v.mp4/ts" =
      Response.indexOutOfRange 5 5 ∧
    ServeHLS (LoadConfig (fun _ => none)) "/output/480p/v.mp4" =
      Response.badRequest "Invalid URL format" ∧
    ServeHLS (LoadConfig (fun _ => none)) "/output/480p/v.mp4/ts/480p_000.ts" =
      Response.serveFileFromGridFS "./output/480p/v.mp4/ts/480p_000.ts" "media" := by
  decide

theorem String_mk_data (s : String) : String.mk s.data = s := rfl

/-- The characters of `filepath.Join(out, names...)` for a non-empty `out` and single
components `names`, with the beginning spelled out: the cleaned components of `out`. -/
theorem Join_data_of_nonempty (sep c : Char) (cs : List Char) (out : String) (N : List String)
    (hout : out.data = c :: cs) (hne : N ≠ []) (hN : ∀ n ∈ N, isPlainName sep n = true) :
    (Join sep (out :: N)).data =
      ((if isSeparator sep c = true then [sep] else []) ++
        (if (splitPath sep (c :: cs)).foldl (cleanStep (isSeparator sep c)) [] = [] then []
         else List.intercalate [sep]
          ((splitPath sep (c :: cs)).foldl (cleanStep (isSeparator sep c)) []) ++ [sep])) ++
      List.intercalate [sep] (N.map String.data) := by
  have hfilter : N.filter (fun e => decide (e.data ≠ [])) = N := by
    rw [List.filter_eq_self]
    intro n hn
    simpa using ((isPlainName_iff sep n).1 (hN n hn)).1
  have hchars : ∀ n ∈ N.map String.data, n.all (fun c => !isSeparator sep c) = true := by
    intro n hn
    obtain ⟨m, hm, rfl⟩ := List.mem_map.1 hn
    exact ((isPlainName_iff sep m).1 (hN m hm)).2.2.2
  have hdots : ∀ n ∈ N.map String.data, n ≠ [] ∧ n ≠ ['.'] ∧ n ≠ ['.', '.'] := by
    intro n hn
    obtain ⟨m, hm, rfl⟩ := List.mem_map.1 hn
    obtain ⟨h1, h2, h3, _⟩ := (isPlainName_iff sep m).1 (hN m hm)
    exact ⟨h1, h2, h3⟩
  have hmapne : N.map String.data ≠ [] := by simpa using hne
  have hf : (out :: N).filter (fun e => decide (e.data ≠ [])) = out :: N := by
    rw [List.filter_cons_of_pos (by simp [hout]), hfilter]
  have hjoin : Join sep (out :: N) =
      Clean sep (String.mk (c :: (cs ++ sep :: List.intercalate [sep] (N.map String.data)))) := by
    cases N with
    | nil => exact absurd rfl hne
    | cons n N =>
      simp only [Join, hf, List.map_cons, hout]
      rw [intercalate_cons_cons_chars]
      simp
  have hS : splitPath sep (c :: (cs ++ sep :: List.intercalate [sep] (N.map String.data))) =
      splitPath sep (c :: cs) ++ N.map String.data := by
    rw [← List.cons_append, splitPath_append_sep sep sep (isSeparator_self sep),
      splitPath_intercalate sep _ hmapne hchars]
  rw [hjoin, Clean_data_of_split sep c _ _ _ hmapne hdots hS]

/-- Joining a clean relative path, given by its components, with further single
components appends them. -/
theorem Join_intercalate (sep : Char) (M N : List String) (hM : M ≠ []) (hN : N ≠ [])
    (hMp : ∀ n ∈ M, isPlainName sep n = true) (hNp : ∀ n ∈ N, isPlainName sep n = true) :
    Join sep (String.mk (List.intercalate [sep] (M.map String.data)) :: N) =
      String.mk (List.intercalate [sep] ((M ++ N).map String.data)) := by
  have hMchars : ∀ n ∈ M.map String.data, n.all (fun c => !isSeparator sep c) = true := by
    intro n hn
    obtain ⟨m, hm, rfl⟩ := List.mem_map.1 hn
    exact ((isPlainName_iff sep m).1 (hMp m hm)).2.2.2
  have hMdots : ∀ n ∈ M.map String.data, n ≠ [] ∧ n ≠ ['.'] ∧ n ≠ ['.', '.'] := by
    intro n hn
    obtain ⟨m, hm, rfl⟩ := List.mem_map.1 hn
    obtain ⟨h1, h2, h3, _⟩ := (isPlainName_iff sep m).1 (hMp m hm)
    exact ⟨h1, h2, h3⟩
  have hMne : M.map String.data ≠ [] := by simpa using hM
  have hNne : N.map String.data ≠ [] := by simpa using hN
  have hsplit := splitPath_intercalate sep _ hMne hMchars
  -- the first character of the path is the first character of its first component
  obtain ⟨c, cs, hc, hcsep⟩ : ∃ c cs, List.intercalate [sep] (M.map String.data) = c :: cs ∧
      isSeparator sep c = false := by
    cases M with
    | nil => exact absurd rfl hM
    | cons m M =>
      have hm1 := (hMdots m.data (by simp)).1
      have hm4 := hMchars m.data (by simp)
      rcases hmd : m.data with _ | ⟨e, es⟩
      · exact absurd hmd hm1
      · rw [hmd] at hm4
        simp only [List.all_cons, Bool.and_eq_true, Bool.not_eq_true'] at hm4
        cases M with
        | nil => exact ⟨e, es, by simp [List.intercalate, hmd], hm4.1⟩
        | cons m2 M =>
          refine ⟨e, es ++ [sep] ++ List.intercalate [sep] ((m2 :: M).map String.data), ?_, hm4.1⟩
          rw [List.map_cons, List.map_cons, intercalate_cons_cons_chars, hmd]
          simp
  have hC : (splitPath sep (c :: cs)).foldl (cleanStep (isSeparator sep c)) [] =
      M.map String.data := by
    rw [← hc, hsplit, foldl_cleanStep_plain _ _ _ hMdots]
    rfl
  apply String.ext
  rw [Join_data_of_nonempty sep c cs (String.mk (List.intercalate [sep] (M.map String.data))) N
      hc hN hNp, hC, hcsep, List.map_append,
    intercalate_append_chars _ _ _ hNne]
  simp [hMne]


theorem isPlainName_literals (sep : Char) (hsep : sep = '/' ∨ sep = '\\') :
    isPlainName sep "output" = true ∧ isPlainName sep "ts" = true ∧
      isPlainName sep "m3u8" = true := by
  rcases hsep with rfl | rfl <;> decide

/-- The first join of the walk below `./output`: the leading `./` is cleaned away. -/
theorem Join_output (sep : Char) (hsep : sep = '/' ∨ sep = '\\') (N : List String) (hN : N ≠ [])
    (hNp : ∀ n ∈ N, isPlainName sep n = true) :
    Join sep ("./output" :: N) =
      String.mk (List.intercalate [sep] ((("output" : String) :: N).map String.data)) := by
  have hNne : N.map String.data ≠ [] := by simpa using hN
  have hC : (splitPath sep ('.' :: "/output".data)).foldl (cleanStep (isSeparator sep '.')) [] =
      ["output".data] := by
    rcases hsep with rfl | rfl <;> decide
  have hdot : isSeparator sep '.' = false := by
    rcases hsep with rfl | rfl <;> decide
  apply String.ext
  rw [Join_data_of_nonempty sep '.' "/output".data "./output" N rfl hN hNp, hC, hdot]
  cases N with
  | nil => exact absurd rfl hN
  | cons n N =>
    show _ = List.intercalate [sep] ("output".data :: n.data :: N.map String.data)
    rw [intercalate_cons_cons_chars]
    simp [List.intercalate]

/-- The path the walk reports for an entry below a clean relative directory: the
components of the directory, then the names on the way down. -/
theorem walkPath_intercalate (sep : Char) (names M : List String) (hM : M ≠ [])
    (hMp : ∀ n ∈ M, isPlainName sep n = true) (hNp : ∀ n ∈ names, isPlainName sep n = true) :
    walkPath sep (String.mk (List.intercalate [sep] (M.map String.data))) names =
      String.mk (List.intercalate [sep] ((M ++ names).map String.data)) := by
  induction names generalizing M with
  | nil => simp [walkPath]
  | cons n names ih =>
    rw [walkPath, Join_intercalate sep M [n] hM (by simp) hMp
      (fun x hx => hNp x (by simp only [List.mem_singleton] at hx; simp [hx])),
      ih (M ++ [n]) (by simp)
        (fun x hx => by
          simp only [List.mem_append, List.mem_singleton] at hx
          rcases hx with hx | hx
          · exact hMp x hx
          · exact hNp x (by simp [hx]))
        (fun x hx => hNp x (by simp [hx]))]
    simp

/-- The path the walk of `./output` reports for the entry reached through `names`. -/
theorem walkPath_output (sep : Char) (hsep : sep = '/' ∨ sep = '\\') (names : List String)
    (hne : names ≠ []) (hNp : ∀ n ∈ names, isPlainName sep n = true) :
    walkPath sep "./output" names =
      String.mk (List.intercalate [sep] ((("output" : String) :: names).map String.data)) := by
  cases names with
  | nil => exact absurd rfl hne
  | cons n names =>
    rw [walkPath, Join_output sep hsep [n] (by simp)
      (fun x hx => hNp x (by simp only [List.mem_singleton] at hx; simp [hx]))]
    have := walkPath_intercalate sep names ["output", n] (by simp)
      (fun x hx => by
        simp only [List.mem_cons, List.mem_singleton, List.not_mem_nil, or_false] at hx
        rcases hx with rfl | rfl
        · exact (isPlainName_literals sep hsep).1
        · exact hNp x (by simp))
      (fun x hx => hNp x (by simp [hx]))
    simpa using this


theorem map_intercalate_chars (g : Char → Char) (sep : List Char) (L : List (List Char)) :
    (List.intercalate sep L).map g = List.intercalate (sep.map g) (L.map (List.map g)) := by
  induction L with
  | nil => simp [List.intercalate]
  | cons x L ih =>
    cases L with
    | nil => simp [List.intercalate]
    | cons y L =>
      rw [intercalate_cons_cons_chars, List.map_append, List.map_append, ih]
      show _ = List.intercalate (sep.map g) (x.map g :: y.map g :: L.map (List.map g))
      rw [intercalate_cons_cons_chars]
      simp

/-- A single component has no slash. -/
theorem isPlainName_no_slash (sep : Char) (n : String) (h : isPlainName sep n = true) :
    n.data.all (fun c => !isSeparator '/' c) = true := by
  have h4 := ((isPlainName_iff sep n).1 h).2.2.2
  rw [List.all_eq_true] at h4 ⊢
  intro c hc
  have := h4 c hc
  simp only [isSeparator, Bool.not_eq_true', Bool.or_eq_false_iff, beq_eq_false_iff_ne] at this ⊢
  exact ⟨this.1, this.1⟩

/-- The pieces of the request path of a segment. -/
theorem Split_segment_path (sep : Char) (q s f : String)
    (hq : isPlainName sep q = true) (hs : isPlainName sep s = true)
    (hf : isPlainName sep f = true) :
    Split ("/output/" ++ q ++ "/" ++ s ++ "/ts/" ++ f) = ["", "output", q, s, "ts", f] := by
  have hdata : ("/output/" ++ q ++ "/" ++ s ++ "/ts/" ++ f).data =
      List.intercalate ['/'] [[], "output".data, q.data, s.data, "ts".data, f.data] := by
    simp only [String.data_append]
    simp [List.intercalate]
  unfold Split
  rw [hdata, splitPath_intercalate '/' _ (by simp)]
  · rfl
  · intro n hn
    simp only [List.mem_cons, List.mem_singleton, List.not_mem_nil, or_false] at hn
    rcases hn with rfl | rfl | rfl | rfl | rfl | rfl
    · rfl
    · decide
    · exact isPlainName_no_slash sep q hq
    · exact isPlainName_no_slash sep s hs
    · decide
    · exact isPlainName_no_slash sep f hf


theorem NormalizePath_append (a b : String) :
    NormalizePath (a ++ b) = NormalizePath a ++ NormalizePath b := by
  apply String.ext
  simp [NormalizePath, String.data_append]

/-- The name of a playlist, `<quality>.m3u8`, is a single component. -/
theorem isPlainName_playlist (sep : Char) (hsep : sep = '/' ∨ sep = '\\') (q : String)
    (hq : isPlainName sep q = true) : isPlainName sep (q ++ ".m3u8") = true := by
  obtain ⟨h1, _, _, h4⟩ := (isPlainName_iff sep q).1 hq
  rw [isPlainName_iff]
  have hlen : (q ++ ".m3u8").data.length = q.data.length + 5 := by
    simp [String.data_append]
  have hpos : 0 < q.data.length := List.length_pos.2 h1
  refine ⟨?_, ?_, ?_, ?_⟩
  · intro h
    rw [h] at hlen
    simp at hlen
  · intro h
    rw [h] at hlen
    simp at hlen
  · intro h
    rw [h] at hlen
    simp at hlen
  · rw [String.data_append, List.all_append, h4]
    rcases hsep with rfl | rfl <;> decide

/-- C18: with the transcoded path `./output`, for a quality, a stream id and a segment
file name that are single path components, the GridFS name `ServeHLS` looks up for the
request path `/output/q/s/ts/f` is the name `UploadFileToGridFS` stores the segment
under, when `TranscodeVideo` hands it over as `.\` followed by the path the walk reports;
and the name `ServeM3U8` looks up for quality `q` and stream id `s` is the name the
playlist `q.m3u8` is stored under. -/
theorem C18_serving_key_equals_storing_key (sep : Char) (hsep : sep = '/' ∨ sep = '\\')
    (conf : Config) (hconf : conf.TranscodedFilePath = "./output") (q s f : String)
    (hq : isPlainName sep q = true) (hs : isPlainName sep s = true)
    (hf : isPlainName sep f = true) :
    (∃ name, ServeHLS conf ("/output/" ++ q ++ "/" ++ s ++ "/ts/" ++ f) =
        Response.serveFileFromGridFS name "media" ∧
      normalizedFilePath name = relPath (".\\" ++ walkPath sep "./output" [q, s, "ts", f])) ∧
    (∀ queryParams : String → String, queryParams "quality" = q → queryParams "stream_id" = s →
      ∃ name, ServeM3U8 sep conf queryParams = Response.serveFileFromGridFS name "media" ∧
        normalizedFilePath name =
          relPath (".\\" ++ walkPath sep "./output" [q, s, "m3u8", q ++ ".m3u8"])) := by
  obtain ⟨hout, hts, hm3u8⟩ := isPlainName_literals sep hsep
  have hnorm : (if sep = '\\' then '/' else sep) = '/' := by
    rcases hsep with rfl | rfl <;> decide
  constructor
  · refine ⟨"./output" ++ "/" ++ q ++ "/" ++ s ++ "/ts/" ++ f, ?_, ?_⟩
    · simp [ServeHLS, Split_segment_path sep q s f hq hs hf, hconf]
    · have hnames : ∀ n ∈ [q, s, "ts", f], isPlainName sep n = true := by
        intro n hn
        simp only [List.mem_cons, List.mem_singleton, List.not_mem_nil, or_false] at hn
        rcases hn with rfl | rfl | rfl | rfl <;> assumption
      rw [relPath_of_walk_path, walkPath_output sep hsep _ (by simp) hnames]
      apply String.ext
      simp only [normalizedFilePath, NormalizePath, String.data_append, map_intercalate_chars]
      simp [List.intercalate, hnorm]
  · intro queryParams hquality hstream
    have hqne : q ≠ "" := by
      intro h
      have := ((isPlainName_iff sep q).1 hq).1
      rw [h] at this
      exact this rfl
    have hsne : s ≠ "" := by
      intro h
      have := ((isPlainName_iff sep s).1 hs).1
      rw [h] at this
      exact this rfl
    have hqm := isPlainName_playlist sep hsep q hq
    have hdir : Join sep ["./output", q, s, "m3u8"] =
        String.mk (List.intercalate [sep] (["output", q, s, "m3u8"].map String.data)) := by
      apply Join_output sep hsep [q, s, "m3u8"] (by simp)
      intro n hn
      simp only [List.mem_cons, List.mem_singleton, List.not_mem_nil, or_false] at hn
      rcases hn with rfl | rfl | rfl <;> assumption
    have hfile : Join sep [Join sep ["./output", q, s, "m3u8"], q ++ ".m3u8"] =
        walkPath sep "./output" [q, s, "m3u8", q ++ ".m3u8"] := by
      rw [hdir, Join_intercalate sep ["output", q, s, "m3u8"] [q ++ ".m3u8"] (by simp) (by simp)
        (by
          intro n hn
          simp only [List.mem_cons, List.mem_singleton, List.not_mem_nil, or_false] at hn
          rcases hn with rfl | rfl | rfl | rfl <;> assumption)
        (by
          intro n hn
          simp only [List.mem_singleton] at hn
          rw [hn]
          exact hqm),
        walkPath_output sep hsep _ (by simp) (by
          intro n hn
          simp only [List.mem_cons, List.mem_singleton, List.not_mem_nil, or_false] at hn
          rcases hn with rfl | rfl | rfl | rfl <;> assumption)]
      rfl
    refine ⟨"./" ++ walkPath sep "./output" [q, s, "m3u8", q ++ ".m3u8"], ?_, ?_⟩
    · simp only [ServeM3U8, hquality, hstream, hconf, if_neg hqne, if_neg hsne, hfile]
    · rw [relPath_of_walk_path, normalizedFilePath, NormalizePath_append]
      rfl

/-- C18 on a Windows host, for the first 480p segment of `v.mp4`: both keys are
`./output/480p/v.mp4/ts/480p_000.ts`. -/
theorem C18_serving_key_equals_storing_key_witness :
    isPlainName '\\' "480p" = true ∧ isPlainName '\\' "v.mp4" = true ∧
    isPlainName '\\' "480p_000.ts" = true ∧
    (LoadConfig (fun _ => none)).TranscodedFilePath = "./output" ∧
    relPath (".\\" ++ walkPath '\\' "./output" ["480p", "v.mp4", "ts", "480p_000.ts"]) =
      "./output/480p/v.mp4/ts/480p_000.ts" ∧
    relPath (".\\" ++ walkPath '\\' "./output" ["480p", "v.mp4", "m3u8", "480p" ++ ".m3u8"]) =
      "./output/480p/v.mp4/m3u8/480p.m3u8" ∧
    (∃ name, ServeHLS (LoadConfig (fun _ => none))
          ("/output/" ++ "480p" ++ "/" ++ "v.mp4" ++ "/ts/" ++ "480p_000.ts") =
        Response.serveFileFromGridFS name "media" ∧
      normalizedFilePath name =
        relPath (".\\" ++ walkPath '\\' "./output" ["480p", "v.mp4", "ts", "480p_000.ts"])) ∧
    (∀ queryParams : String → String, queryParams "quality" = "480p" →
      queryParams "stream_id" = "v.mp4" →
      ∃ name, ServeM3U8 '\\' (LoadConfig (fun _ => none)) queryParams =
          Response.serveFileFromGridFS name "media" ∧
        normalizedFilePath name =
          relPath (".\\" ++ walkPath '\\' "./output" ["480p", "v.mp4", "m3u8", "480p" ++ ".m3u8"])) :=
  ⟨by decide, by decide, by decide, rfl, by decide, by decide,
   C18_serving_key_equals_storing_key '\\' (Or.inr rfl) (LoadConfig (fun _ => none)) rfl
     "480p" "v.mp4" "480p_000.ts" (by decide) (by decide) (by decide)⟩

/-- The handler panics exactly on the request paths that split into five pieces. -/
theorem ServeHLS_indexOutOfRange_iff (conf : Config) (urlPath : String) :
    (∃ i n, ServeHLS conf urlPath = Response.indexOutOfRange i n) ↔
      (Split urlPath).length = 5 := by
  rcases hl : Split urlPath with _ | ⟨a, _ | ⟨b, _ | ⟨c, _ | ⟨d, _ | ⟨e, _ | ⟨f, rest⟩⟩⟩⟩⟩⟩
  · simp [ServeHLS, hl]
  · simp [ServeHLS, hl]
  · simp [ServeHLS, hl]
  · simp [ServeHLS, hl]
  · simp [ServeHLS, hl]
  · simp [ServeHLS, hl]
  · have hlen : ¬ (rest.length + 1 + 1 + 1 + 1 + 1 + 1 < 5) := by omega
    simp [ServeHLS, hl, hlen]

end Mtv
